import Mathlib

/-!
# Order dispatch controller: a shallow embedding

The Go program keeps orders and bots as heap objects reached through pointers
(`*order.Order`, `*bot.Bot`).  The queues of the controller, the `CurrentOrder`
field of a bot and the local variable `nextOrder` of a pull-loop all alias the
same order object, so the embedding keeps an explicit heap: an address is a
natural number, `World.orders` and `World.botObjs` map addresses to objects and
`orderTop` / `botTop` are the allocation frontiers.

Every method of the controller that runs under `c.mu` is one function on
`World`.  The goroutine `processOrdersForBot` is a small program counter per bot
(`Loop`), advanced by the actions of `step`.  `StartProcessing` blocks outside
the lock, so it is split in its entry part and its two exits.

Calls of `c.logger` and the formatting of log lines are not modelled.  The
counters are Go `int`s that only ever grow by one from zero; every order that
was created stays referenced by a queue, a bot or a pull-loop, so the heap is
exhausted long before 2^63 creations, and 2^63 calls of `AddBot` take centuries
at one call per nanosecond: the counters are natural numbers here.
Time stamps are natural numbers, zero being the zero `time.Time`; `time.Now()`
is a parameter `now` of the operation that calls it.
-/

namespace Assignment

/-! ## package order -/

/-- OrderType of order.go: the class of an order. -/
inductive OrderType where
  | Normal
  | VIP
  deriving DecidableEq, Repr, Inhabited

/-- OrderStatus of order.go. -/
inductive OrderStatus where
  | PENDING
  | PROCESSING
  | COMPLETE
  deriving DecidableEq, Repr, Inhabited

/-- Order of order.go.  The field `Type` is called `Typ` (a reserved word in Lean). -/
structure Order where
  ID : Nat
  Typ : OrderType
  Status : OrderStatus
  CreatedAt : Nat
  CompletedAt : Nat
  deriving DecidableEq, Repr, Inhabited

/-- NewOrder of order.go; `now` is the value of `time.Now()`. -/
def NewOrder (id : Nat) (orderType : OrderType) (now : Nat) : Order :=
  { ID := id, Typ := orderType, Status := OrderStatus.PENDING, CreatedAt := now, CompletedAt := 0 }

/-- SetProcessing of order.go. -/
def Order.SetProcessing (o : Order) : Order :=
  { o with Status := OrderStatus.PROCESSING }

/-- SetComplete of order.go; `now` is the value of `time.Now()`. -/
def Order.SetComplete (o : Order) (now : Nat) : Order :=
  { o with Status := OrderStatus.COMPLETE, CompletedAt := now }

/-- SetPending of order.go. -/
def Order.SetPending (o : Order) : Order :=
  { o with Status := OrderStatus.PENDING }

/-- IsVIP of order.go. -/
def Order.IsVIP (o : Order) : Bool :=
  o.Typ == OrderType.VIP

/-! ## package bot -/

/-- Address of an order object. -/
abbrev OrderPtr := Nat

/-- Address of a bot object. -/
abbrev BotPtr := Nat

/-- BotStatus of bot.go. -/
inductive BotStatus where
  | IDLE
  | PROCESSING
  deriving DecidableEq, Repr, Inhabited

/-- Bot of bot.go.  `ctxDone` says whether `cancel` was called on the context made
by `NewBot`, that is whether `ctx.Done()` is closed.  `stopChan` is unbuffered and
holds no value between calls; see `Stop`. -/
structure Bot where
  ID : Nat
  Status : BotStatus
  CurrentOrder : Option OrderPtr
  CreatedAt : Nat
  ctxDone : Bool
  deriving DecidableEq, Repr, Inhabited

/-- NewBot of bot.go. -/
def NewBot (id : Nat) (now : Nat) : Bot :=
  { ID := id, Status := BotStatus.IDLE, CurrentOrder := none, CreatedAt := now, ctxDone := false }

/-- IsIdle of bot.go. -/
def Bot.IsIdle (b : Bot) : Bool :=
  b.Status == BotStatus.IDLE

/-- IsProcessing of bot.go. -/
def Bot.IsProcessing (b : Bot) : Bool :=
  b.Status == BotStatus.PROCESSING

/-! ## package controller -/

/-- Controller of controller.go, without the mutex and the logger. -/
structure Controller where
  vipOrders : List OrderPtr
  normalOrders : List OrderPtr
  bots : List BotPtr
  orderCounter : Nat
  botCounter : Nat
  deriving DecidableEq, Repr, Inhabited

/-- Where the goroutine `processOrdersForBot(b)` stands.
* `poll`: at the top of the `for`, about to call `takeNextOrderForBot`;
* `idleWait`: blocked in the select on `ShouldStop()` and the 100 ms timer;
* `holding o`: `takeNextOrderForBot` returned `o`, `StartProcessing` not yet entered;
* `running o`: blocked in the select of `StartProcessing(o)`;
* `finished o completed`: `StartProcessing` returned `completed`,
  `returnOrderToQueue(o)` not yet called;
* `exited`: the goroutine returned (or was never started). -/
inductive Loop where
  | poll
  | idleWait
  | holding (o : OrderPtr)
  | running (o : OrderPtr)
  | finished (o : OrderPtr) (completed : Bool)
  | exited
  deriving DecidableEq, Repr, Inhabited

/-- The order a pull-loop has in its local variable `nextOrder`, if any. -/
def Loop.held : Loop → Option OrderPtr
  | Loop.holding o => some o
  | Loop.running o => some o
  | Loop.finished o _ => some o
  | _ => none

/-- The whole program state: both heaps, the controller and the pull-loops. -/
structure World where
  orders : OrderPtr → Order
  orderTop : Nat
  botObjs : BotPtr → Bot
  botTop : Nat
  c : Controller
  loops : BotPtr → Loop

/-- NewController of controller.go, in an empty heap with no goroutine. -/
def NewController : World :=
  { orders := fun _ => default
    orderTop := 0
    botObjs := fun _ => default
    botTop := 0
    c := { vipOrders := [], normalOrders := [], bots := [], orderCounter := 0, botCounter := 0 }
    loops := fun _ => Loop.exited }

/-- The test `o.Status == order.PENDING` on the order at address `o`. -/
def World.isPending (w : World) (o : OrderPtr) : Bool :=
  (w.orders o).Status == OrderStatus.PENDING

/-- The test `o.Status == order.COMPLETE` on the order at address `o`. -/
def World.isComplete (w : World) (o : OrderPtr) : Bool :=
  (w.orders o).Status == OrderStatus.COMPLETE

/-- insertOrderBack of controller.go. -/
def insertOrderBack (w : World) (o : OrderPtr) : World :=
  if (w.orders o).IsVIP then
    { w with c := { w.c with vipOrders := w.c.vipOrders ++ [o] } }
  else
    { w with c := { w.c with normalOrders := w.c.normalOrders ++ [o] } }

/-- assignOrderToBot of controller.go: it collects the idle bots and counts the
pending orders, and then does nothing with either. -/
def assignOrderToBot (w : World) : World :=
  let _idleBots := w.c.bots.filter (fun b => (w.botObjs b).IsIdle)
  let _pendingCount :=
    (w.c.vipOrders.filter w.isPending).length + (w.c.normalOrders.filter w.isPending).length
  w

/-- CreateNormalOrder of controller.go.  The new order object is allocated at the
address `orderTop`. -/
def CreateNormalOrder (now : Nat) (w : World) : OrderPtr × World :=
  let counter := w.c.orderCounter + 1
  let o := w.orderTop
  let w1 : World :=
    { w with
      orders := Function.update w.orders o (NewOrder counter OrderType.Normal now)
      orderTop := w.orderTop + 1
      c := { w.c with orderCounter := counter, normalOrders := w.c.normalOrders ++ [o] } }
  (o, assignOrderToBot w1)

/-- CreateVIPOrder of controller.go. -/
def CreateVIPOrder (now : Nat) (w : World) : OrderPtr × World :=
  let counter := w.c.orderCounter + 1
  let o := w.orderTop
  let w1 : World :=
    { w with
      orders := Function.update w.orders o (NewOrder counter OrderType.VIP now)
      orderTop := w.orderTop + 1
      c := { w.c with orderCounter := counter, vipOrders := w.c.vipOrders ++ [o] } }
  (o, assignOrderToBot w1)

/-- AddBot of controller.go.  The new bot object is allocated at the address
`botTop` and its goroutine starts at the top of its loop. -/
def AddBot (now : Nat) (w : World) : BotPtr × World :=
  let counter := w.c.botCounter + 1
  let b := w.botTop
  let w1 : World :=
    { w with
      botObjs := Function.update w.botObjs b (NewBot counter now)
      botTop := w.botTop + 1
      c := { w.c with botCounter := counter, bots := w.c.bots ++ [b] }
      loops := Function.update w.loops b Loop.poll }
  (b, w1)

/-- Stop of bot.go.  `cancel()` closes `ctx.Done()`.  The send on the unbuffered
`stopChan` is non-blocking: it is delivered only when the goroutine of the bot is
blocked receiving in its backoff select, which then returns; otherwise the
`default` branch runs and the signal is dropped. -/
def Stop (w : World) (b : BotPtr) : World :=
  let w1 : World :=
    if (w.botObjs b).Status == BotStatus.PROCESSING && (w.botObjs b).CurrentOrder.isSome then
      { w with botObjs := Function.update w.botObjs b { w.botObjs b with ctxDone := true } }
    else w
  if w1.loops b = Loop.idleWait then
    { w1 with loops := Function.update w1.loops b Loop.exited }
  else w1

/-- RemoveBot of controller.go. -/
def RemoveBot (w : World) : Bool × World :=
  match w.c.bots.getLast? with
  | none => (false, w)
  | some b =>
    let w1 : World := { w with c := { w.c with bots := w.c.bots.dropLast } }
    let w2 : World :=
      if (w1.botObjs b).IsProcessing && (w1.botObjs b).CurrentOrder.isSome then
        let w3 := Stop w1 b
        match (w3.botObjs b).CurrentOrder with
        | some o =>
          insertOrderBack { w3 with orders := Function.update w3.orders o (w3.orders o).SetPending } o
        | none => w3
      else w1
    (true, assignOrderToBot w2)

/-- The loop `for i, o := range queue { if o.Status == order.PENDING { ...; break } }`
of takeNextOrderForBot, started at index `i`: the order found and its index. -/
def scanPending (w : World) : List OrderPtr → Nat → Option (OrderPtr × Nat)
  | [], _ => none
  | o :: rest, i => if w.isPending o then some (o, i) else scanPending w rest (i + 1)

/-- The slice expression `append(q[:i], q[i+1:]...)`. -/
def removeAt (q : List OrderPtr) (i : Nat) : List OrderPtr :=
  q.take i ++ q.drop (i + 1)

/-- takeNextOrderForBot of controller.go.  The result is the pair `(order, ok)`,
`none` standing for `nil`. -/
def takeNextOrderForBot (w : World) (b : BotPtr) : (Option OrderPtr × Bool) × World :=
  let botExists := w.c.bots.any (fun existingBot => (w.botObjs existingBot).ID == (w.botObjs b).ID)
  if !botExists then ((none, false), w)
  else
    match scanPending w w.c.vipOrders 0 with
    | some (o, i) =>
      ((some o, true), { w with c := { w.c with vipOrders := removeAt w.c.vipOrders i } })
    | none =>
      match scanPending w w.c.normalOrders 0 with
      | some (o, i) =>
        ((some o, true), { w with c := { w.c with normalOrders := removeAt w.c.normalOrders i } })
      | none => ((none, true), w)

/-- returnOrderToQueue of controller.go. -/
def returnOrderToQueue (w : World) (o : OrderPtr) : World :=
  insertOrderBack w o

/-- GetPendingOrders of controller.go. -/
def GetPendingOrders (w : World) : List OrderPtr :=
  w.c.vipOrders.filter w.isPending ++ w.c.normalOrders.filter w.isPending

/-- Entry of StartProcessing of bot.go, up to the select. -/
def StartProcessingBegin (w : World) (b : BotPtr) (o : OrderPtr) : World :=
  { w with
    botObjs := Function.update w.botObjs b
      { w.botObjs b with CurrentOrder := some o, Status := BotStatus.PROCESSING }
    orders := Function.update w.orders o (w.orders o).SetProcessing }

/-- Branch `<-time.After(10 * time.Second)` of StartProcessing; it returns true. -/
def StartProcessingComplete (now : Nat) (w : World) (b : BotPtr) (o : OrderPtr) : World :=
  { w with
    orders := Function.update w.orders o ((w.orders o).SetComplete now)
    botObjs := Function.update w.botObjs b
      { w.botObjs b with Status := BotStatus.IDLE, CurrentOrder := none } }

/-- Branch `<-b.ctx.Done()` of StartProcessing; it returns false. -/
def StartProcessingCancelled (w : World) (b : BotPtr) (o : OrderPtr) : World :=
  { w with
    orders := Function.update w.orders o (w.orders o).SetPending
    botObjs := Function.update w.botObjs b
      { w.botObjs b with Status := BotStatus.IDLE, CurrentOrder := none } }

/-! ## Atomic steps of the system -/

/-- The atomic steps: the four calls of the controller API that change the state,
and the moves of the pull-loop of the bot at address `b`. -/
inductive Action where
  | createNormal (now : Nat)
  | createVIP (now : Nat)
  | addBot (now : Nat)
  | removeBot
  | takeNext (b : BotPtr)
  | backoff (b : BotPtr)
  | startRun (b : BotPtr)
  | endCompleted (b : BotPtr) (now : Nat)
  | endCancelled (b : BotPtr)
  | returnToQueue (b : BotPtr)
  deriving DecidableEq, Repr

/-- Sets the program counter of the pull-loop of `b`. -/
def World.goto (w : World) (b : BotPtr) (l : Loop) : World :=
  { w with loops := Function.update w.loops b l }

/-- One atomic step; `none` when the action is not enabled.  The first select of
the pull-loop (a non-blocking receive on `stopChan`) never fires, every send on
that channel being non-blocking too, and is part of `takeNext`. -/
def step (w : World) : Action → Option World
  | Action.createNormal now => some (CreateNormalOrder now w).2
  | Action.createVIP now => some (CreateVIPOrder now w).2
  | Action.addBot now => some (AddBot now w).2
  | Action.removeBot => some (RemoveBot w).2
  | Action.takeNext b =>
    match w.loops b with
    | Loop.poll =>
      match takeNextOrderForBot w b with
      | ((_, false), w1) => some (w1.goto b Loop.exited)
      | ((none, true), w1) => some (w1.goto b Loop.idleWait)
      | ((some o, true), w1) => some (w1.goto b (Loop.holding o))
    | _ => none
  | Action.backoff b =>
    match w.loops b with
    | Loop.idleWait => some (w.goto b Loop.poll)
    | _ => none
  | Action.startRun b =>
    match w.loops b with
    | Loop.holding o => some ((StartProcessingBegin w b o).goto b (Loop.running o))
    | _ => none
  | Action.endCompleted b now =>
    match w.loops b with
    | Loop.running o => some ((StartProcessingComplete now w b o).goto b (Loop.finished o true))
    | _ => none
  | Action.endCancelled b =>
    match w.loops b with
    | Loop.running o =>
      if (w.botObjs b).ctxDone then
        some ((StartProcessingCancelled w b o).goto b (Loop.finished o false))
      else none
    | _ => none
  | Action.returnToQueue b =>
    match w.loops b with
    | Loop.finished o _ => some ((returnOrderToQueue w o).goto b Loop.poll)
    | _ => none

/-- Runs a sequence of atomic steps; `none` when one of them is not enabled. -/
def run (w : World) : List Action → Option World
  | [] => some w
  | a :: rest => (step w a).bind (fun w1 => run w1 rest)

/-! ## Concrete states used to exercise the theorems -/

/-- Orders 1 (Normal), 2 (VIP), 3 (Normal) at addresses 0, 1, 2 and two bots, all idle. -/
def demoIdle : World :=
  (AddBot 14 (AddBot 13 (CreateNormalOrder 12 (CreateVIPOrder 11
    (CreateNormalOrder 10 NewController).2).2).2).2).2

/-- The trace that leads to `demoBusy`. -/
def demoBusyTrace : List Action :=
  [Action.createNormal 10, Action.createVIP 11, Action.createNormal 12, Action.addBot 13,
   Action.addBot 14, Action.takeNext 1, Action.startRun 1]

/-- As `demoIdle`, after the second bot (address 1) took the VIP order (address 1)
and entered `StartProcessing`. -/
def demoBusy : World :=
  (run NewController demoBusyTrace).get (by decide)

/-- The state RemoveBot leaves when the last bot `b` is processing order `o`. -/
def requeued (w : World) (b : BotPtr) (o : OrderPtr) : World :=
  let w3 := Stop { w with c := { w.c with bots := w.c.bots.dropLast } } b
  insertOrderBack { w3 with orders := Function.update w3.orders o (w3.orders o).SetPending } o

/-- The bot at address `b` is registered: some bot of the registry has its id. -/
def registered (w : World) (b : BotPtr) : Prop :=
  ∃ e ∈ w.c.bots, (w.botObjs e).ID = (w.botObjs b).ID

/-! ## Invariants -/

/-- Well-formedness of the heaps, kept by every step: queued, held and current
orders are allocated; each queue holds orders of its class only; the order at
address `o` carries the id `o + 1`; the counters equal the allocation frontiers;
registered bots are allocated and no goroutine runs for an unallocated bot. -/
structure WF (w : World) : Prop where
  vipTyped : ∀ o ∈ w.c.vipOrders, o < w.orderTop ∧ (w.orders o).Typ = OrderType.VIP
  normalTyped : ∀ o ∈ w.c.normalOrders, o < w.orderTop ∧ (w.orders o).Typ = OrderType.Normal
  heldAlloc : ∀ b o, (w.loops b).held = some o → o < w.orderTop
  currentAlloc : ∀ b o, (w.botObjs b).CurrentOrder = some o → o < w.orderTop
  ids : ∀ o, o < w.orderTop → (w.orders o).ID = o + 1
  counter : w.c.orderCounter = w.orderTop
  botIds : ∀ b, b < w.botTop → (w.botObjs b).ID = b + 1
  botCounter : w.c.botCounter = w.botTop
  regAlloc : ∀ b ∈ w.c.bots, b < w.botTop
  loopsAlloc : ∀ b, w.botTop ≤ b → w.loops b = Loop.exited

/-- One call of CreateNormalOrder or of CreateVIPOrder, chosen by the class. -/
def createOrder (t : OrderType) (now : Nat) (w : World) : OrderPtr × World :=
  match t with
  | OrderType.Normal => CreateNormalOrder now w
  | OrderType.VIP => CreateVIPOrder now w

/-- A sequence of create calls (class and time of each); the result lists the
orders the calls returned, in call order, with the final state. -/
def createAll (w : World) (calls : List (OrderType × Nat)) : List OrderPtr × World :=
  calls.foldl
    (fun acc call => ((acc.1 ++ [(createOrder call.1 call.2 acc.2).1]),
      (createOrder call.1 call.2 acc.2).2))
    ([], w)

/-- Whether an action is a call of CreateNormalOrder or CreateVIPOrder. -/
def Action.isCreate : Action → Bool
  | Action.createNormal _ => true
  | Action.createVIP _ => true
  | _ => false

/-- The number of create calls in a trace. -/
def creations (acts : List Action) : Nat :=
  (acts.filter Action.isCreate).length

/-- The order a bot must show as `CurrentOrder` while its pull-loop stands at `l`:
the order of the run in progress. -/
def Loop.current : Loop → Option OrderPtr
  | Loop.running o => some o
  | _ => none

/-- The status of the order held by a pull-loop that stands at `l`, when no other
party writes to that order. -/
def Loop.phase : Loop → Option OrderStatus
  | Loop.holding _ => some OrderStatus.PENDING
  | Loop.running _ => some OrderStatus.PROCESSING
  | Loop.finished _ _ => some OrderStatus.COMPLETE
  | _ => none

/-- The queue of a class. -/
def World.queue (w : World) : OrderType → List OrderPtr
  | OrderType.VIP => w.c.vipOrders
  | OrderType.Normal => w.c.normalOrders

/-- Whether RemoveBot would take its requeue branch: the last registered bot is
PROCESSING and has a current order. -/
def lastBotBusy (w : World) : Bool :=
  match w.c.bots.getLast? with
  | none => false
  | some b => (w.botObjs b).IsProcessing && (w.botObjs b).CurrentOrder.isSome

/-- Runs a sequence of atomic steps in which RemoveBot is only called while the
last registered bot is not processing an order; `none` when a step is not enabled
or RemoveBot is called on a processing bot. -/
def runQuiet (w : World) : List Action → Option World
  | [] => some w
  | a :: rest =>
    if a = Action.removeBot ∧ lastBotBusy w = true then none
    else (step w a).bind (fun w1 => runQuiet w1 rest)

/-- How often the order at `o` occurs in the two queues taken together. -/
def inQueues (w : World) (o : OrderPtr) : Nat :=
  (w.c.vipOrders ++ w.c.normalOrders).count o

/-- The allocated bots whose `CurrentOrder` is the order at `o`. -/
def currentOwners (w : World) (o : OrderPtr) : List BotPtr :=
  (List.range w.botTop).filter (fun b => (w.botObjs b).CurrentOrder == some o)

/-- The allocated bots whose pull-loop holds the order at `o` in `nextOrder`. -/
def holders (w : World) (o : OrderPtr) : List BotPtr :=
  (List.range w.botTop).filter (fun b => (w.loops b).held == some o)

/-- The order at `o` is in exactly one place: once in the queues and the current
order of no bot, or in neither queue and the current order of exactly one bot. -/
def onePlace (w : World) (o : OrderPtr) : Bool :=
  (inQueues w o == 1 && (currentOwners w o).length == 0) ||
  (inQueues w o == 0 && (currentOwners w o).length == 1)

/-- The ids of the pending orders of class `t`, in the order of GetPendingOrders. -/
def pendingIds (w : World) (t : OrderType) : List Nat :=
  ((GetPendingOrders w).filter (fun o => (w.orders o).Typ == t)).map (fun o => (w.orders o).ID)

/-- Exclusive ownership of orders, kept by every step but the requeue branch of
RemoveBot: no queue holds an order twice; an order held by a pull-loop is in no
queue and held by no other pull-loop; every allocated order is queued or held;
`CurrentOrder` and `Status` of a bot mirror its pull-loop; no context was
cancelled; a held order has the status of the phase of its holder; no queued
order is PROCESSING; the pending orders of each queue are in address order. -/
structure Excl (w : World) : Prop where
  nodup : ∀ t, (w.queue t).Nodup
  heldFree : ∀ b o t, (w.loops b).held = some o → o ∉ w.queue t
  heldInj : ∀ b1 b2 o, (w.loops b1).held = some o → (w.loops b2).held = some o → b1 = b2
  placed : ∀ o, o < w.orderTop → (∃ t, o ∈ w.queue t) ∨ ∃ b, (w.loops b).held = some o
  current : ∀ b, (w.botObjs b).CurrentOrder = (w.loops b).current ∧
    ((w.botObjs b).Status = BotStatus.PROCESSING ↔ (w.loops b).current.isSome = true)
  notCancelled : ∀ b, (w.botObjs b).ctxDone = false
  phase : ∀ b o, (w.loops b).held = some o → (w.loops b).phase = some (w.orders o).Status
  queueStatus : ∀ t, ∀ o ∈ w.queue t, (w.orders o).Status ≠ OrderStatus.PROCESSING
  sorted : ∀ t, ((w.queue t).filter w.isPending).Pairwise (fun a b => a < b)

/-- A quiet trace: two orders, two bots, a full run of the VIP order by bot 0, the
removal of the idle bot 1, and bot 0 taking the Normal order. -/
def demoQuietTrace : List Action :=
  [Action.createNormal 10, Action.createVIP 11, Action.addBot 12, Action.addBot 13,
   Action.takeNext 0, Action.startRun 0, Action.removeBot, Action.endCompleted 0 20,
   Action.returnToQueue 0, Action.takeNext 0]

/-- The state reached by `demoQuietTrace`. -/
def demoQuiet : World :=
  (runQuiet NewController demoQuietTrace).get (by decide)

/-- A trace that stops between take-next and the start of the run. -/
def inFlightTrace : List Action :=
  [Action.createNormal 1, Action.addBot 2, Action.takeNext 0]

/-- A trace in which a processing bot is removed and its cancelled run then
returns the order. -/
def requeueTwiceTrace : List Action :=
  [Action.createNormal 1, Action.addBot 2, Action.takeNext 0, Action.startRun 0,
   Action.removeBot, Action.endCancelled 0, Action.returnToQueue 0]

/-- A trace in which the older of two Normal orders is requeued behind the younger. -/
def requeueBehindTrace : List Action :=
  [Action.createNormal 1, Action.createNormal 2, Action.addBot 3, Action.takeNext 0,
   Action.startRun 0, Action.removeBot]

/-- What happens while StartProcessing is blocked in its select, when nothing but
Stop interferes: the ten seconds elapse at time `now` and Stop was not called
before (`elapsed`), or Stop is called before the ten seconds are over (`stopped`;
had the call no effect, the timer would fire at time `now`). -/
inductive Race where
  | elapsed (now : Nat)
  | stopped (now : Nat)
  deriving DecidableEq, Repr

/-- StartProcessing of bot.go as one call of the bot `b` on the order `o`, with no
other writer than the Stop of `race`; the result is the returned flag and the
final state.  A context that is already cancelled at entry makes the case
`<-b.ctx.Done()` ready at once, ten seconds before the timer. -/
def StartProcessing (w : World) (b : BotPtr) (o : OrderPtr) (race : Race) : Bool × World :=
  let w1 := StartProcessingBegin w b o
  if (w1.botObjs b).ctxDone then (false, StartProcessingCancelled w1 b o)
  else
    match race with
    | Race.elapsed now => (true, StartProcessingComplete now w1 b o)
    | Race.stopped now =>
      let w2 := Stop w1 b
      if (w2.botObjs b).ctxDone then (false, StartProcessingCancelled w2 b o)
      else (true, StartProcessingComplete now w2 b o)

/-- Two orders (addresses 0 and 1) and one idle bot (address 0), nothing dispatched. -/
def demoFresh : World :=
  (AddBot 3 (CreateNormalOrder 2 (CreateNormalOrder 1 NewController).2).2).2

/-- GetState of controller.go: the two snapshot copies and the state it leaves. -/
def GetState (w : World) : (List OrderPtr × List BotPtr) × World :=
  let allOrders := ([] ++ w.c.vipOrders) ++ w.c.normalOrders
  let ordersCopy := allOrders
  let botsCopy := w.c.bots
  ((ordersCopy, botsCopy), w)

/-- GetCompleteOrders of controller.go. -/
def GetCompleteOrders (w : World) : List OrderPtr :=
  w.c.vipOrders.filter w.isComplete ++ w.c.normalOrders.filter w.isComplete

/-- Whether an action is a call of AddBot. -/
def Action.isAdd : Action → Bool
  | Action.addBot _ => true
  | _ => false

/-- The number of AddBot calls in a trace. -/
def additions (acts : List Action) : Nat :=
  (acts.filter Action.isAdd).length

/-- What happens after the last bot of `demoBusy` was removed. -/
def demoLaterTrace : List Action :=
  [Action.createNormal 30, Action.addBot 31, Action.endCancelled 1, Action.returnToQueue 1]

/-- The state `demoLaterTrace` leads to from `demoBusy` without its last bot. -/
def demoLater : World :=
  (run (RemoveBot demoBusy).2 demoLaterTrace).get (by decide)

/-- A trace that ends with order 1 (address 0) COMPLETE while the last registered
bot is still processing it.  Bot 1 is removed while processing the order, which
RemoveBot and then the cancelled run both put back in the queue; bots 0 and 2
each take one of the two occurrences while it is still PENDING, both start, and
the run of bot 0 completes first. -/
def completedTwiceHeldTrace : List Action :=
  [Action.createNormal 1, Action.addBot 2, Action.addBot 3, Action.takeNext 1,
   Action.startRun 1, Action.removeBot, Action.endCancelled 1, Action.returnToQueue 1,
   Action.addBot 4, Action.takeNext 0, Action.takeNext 2, Action.startRun 0,
   Action.startRun 2, Action.endCompleted 0 50]

/-- GetVIPOrders of controller.go: a copy of the VIP queue. -/
def GetVIPOrders (w : World) : List OrderPtr :=
  w.c.vipOrders

/-- GetNormalOrders of controller.go: a copy of the Normal queue. -/
def GetNormalOrders (w : World) : List OrderPtr :=
  w.c.normalOrders

/-- One registered idle bot and no order. -/
def demoNoOrders : World :=
  (AddBot 1 NewController).2

/-- A trace that ends with a queued order PROCESSING.  Bot 2 (address 1) is removed
while it processes order 1 (address 0); RemoveBot requeues the order, bot 1 takes
it, the cancelled run of bot 2 returns the order to the queue as well, and bot 1
then enters StartProcessing. -/
def processingQueuedTrace : List Action :=
  [Action.addBot 1, Action.addBot 2, Action.createNormal 3, Action.takeNext 1,
   Action.startRun 1, Action.removeBot, Action.takeNext 0, Action.endCancelled 1,
   Action.returnToQueue 1, Action.startRun 0]

/-- A trace that ends with two registered bots processing the same order.  Bot 2
(address 1) is removed while it processes order 1 (address 0), which RemoveBot
and then the cancelled run both put back in the queue; bots 1 and 3 (addresses 0
and 2) each take one of the two occurrences while it is still PENDING, and both
enter StartProcessing. -/
def sharedOrderTrace : List Action :=
  [Action.createNormal 1, Action.addBot 2, Action.addBot 3, Action.takeNext 1,
   Action.startRun 1, Action.removeBot, Action.endCancelled 1, Action.returnToQueue 1,
   Action.addBot 4, Action.takeNext 0, Action.takeNext 2, Action.startRun 0,
   Action.startRun 2]

/-- The state reached by `sharedOrderTrace`. -/
def demoShared : World :=
  (run NewController sharedOrderTrace).get (by decide)

/-- A quiet trace: two Normal orders and two bots, each bot processing one order. -/
def demoTwoBusyTrace : List Action :=
  [Action.createNormal 1, Action.createNormal 2, Action.addBot 3, Action.addBot 4,
   Action.takeNext 0, Action.startRun 0, Action.takeNext 1, Action.startRun 1]

/-- The state reached by `demoTwoBusyTrace`. -/
def demoTwoBusy : World :=
  (runQuiet NewController demoTwoBusyTrace).get (by decide)

/-- A trace that leaves order 1 (address 0) twice in the Normal queue, around
order 2 (address 1), with bot 2 (address 1) registered: the queue is `[0, 1, 0]`
and all three entries are PENDING. -/
def twiceQueuedTrace : List Action :=
  [Action.createNormal 1, Action.addBot 2, Action.takeNext 0, Action.startRun 0,
   Action.removeBot, Action.createNormal 3, Action.endCancelled 0, Action.returnToQueue 0,
   Action.addBot 4]

/-- The state reached by `twiceQueuedTrace`. -/
def demoTwiceQueued : World :=
  (run NewController twiceQueuedTrace).get (by decide)

/-! ## Lemmas on the queue scan -/

theorem scanPending_eq (w : World) (q : List OrderPtr) (i : Nat) :
    scanPending w q i
      = (q.find? w.isPending).map (fun o => (o, i + q.findIdx w.isPending)) := by
  induction q generalizing i with
  | nil => simp [scanPending]
  | cons o rest ih =>
    by_cases h : w.isPending o = true
    · simp [scanPending, h, List.findIdx_cons]
    · simp only [Bool.not_eq_true] at h
      simp [scanPending, h, List.findIdx_cons, ih, Nat.add_assoc, Nat.add_comm 1]

theorem scanPending_fst (w : World) (q : List OrderPtr) (i : Nat) :
    (scanPending w q i).map Prod.fst = q.find? w.isPending := by
  rw [scanPending_eq]
  cases q.find? w.isPending <;> rfl

theorem isPending_iff (w : World) (o : OrderPtr) :
    w.isPending o = true ↔ (w.orders o).Status = OrderStatus.PENDING := by
  simp [World.isPending]

/-! ## takeNextOrderForBot -/

/-- C1: for a bot whose id is in the registry, takeNextOrderForBot returns the
first PENDING order of the VIP queue when there is one, whatever the Normal queue
holds, and otherwise the first PENDING order of the Normal queue; the order it
returns has status PENDING (before and after the call). -/
theorem takeNextOrderForBot_priority (w : World) (b : BotPtr)
    (hb : ∃ e ∈ w.c.bots, (w.botObjs e).ID = (w.botObjs b).ID) :
    (∀ o, w.c.vipOrders.find? w.isPending = some o →
        (takeNextOrderForBot w b).1 = (some o, true)) ∧
    (w.c.vipOrders.find? w.isPending = none →
        (takeNextOrderForBot w b).1 = (w.c.normalOrders.find? w.isPending, true)) ∧
    (∀ o, (takeNextOrderForBot w b).1.1 = some o →
        (w.orders o).Status = OrderStatus.PENDING ∧
        ((takeNextOrderForBot w b).2.orders o).Status = OrderStatus.PENDING) := by
  have hex : (w.c.bots.any fun e => (w.botObjs e).ID == (w.botObjs b).ID) = true := by
    obtain ⟨e, he, hid⟩ := hb
    exact List.any_eq_true.mpr ⟨e, he, by simp [hid]⟩
  have hv := scanPending_fst w w.c.vipOrders 0
  have hn := scanPending_fst w w.c.normalOrders 0
  refine ⟨?_, ?_, ?_⟩
  · intro o ho
    rw [ho] at hv
    cases hs : scanPending w w.c.vipOrders 0 with
    | none => simp [hs] at hv
    | some r =>
      obtain ⟨o1, i⟩ := r
      simp [hs] at hv
      simp [takeNextOrderForBot, hex, hs, hv]
  · intro hnone
    rw [hnone] at hv
    cases hs : scanPending w w.c.vipOrders 0 with
    | some r => simp [hs] at hv
    | none =>
      cases hs2 : scanPending w w.c.normalOrders 0 with
      | none =>
        rw [hs2] at hn
        simp [takeNextOrderForBot, hex, hs, hs2]
        simpa using hn
      | some r =>
        obtain ⟨o1, i⟩ := r
        rw [hs2] at hn
        simp [takeNextOrderForBot, hex, hs, hs2]
        simpa using hn
  · intro o ho
    have key : (w.orders o).Status = OrderStatus.PENDING := by
      cases hs : scanPending w w.c.vipOrders 0 with
      | some r =>
        obtain ⟨o1, i⟩ := r
        simp [takeNextOrderForBot, hex, hs] at ho
        rw [hs] at hv
        have := List.find?_some hv.symm
        simpa [ho] using (isPending_iff w o1).mp this
      | none =>
        cases hs2 : scanPending w w.c.normalOrders 0 with
        | none => simp [takeNextOrderForBot, hex, hs, hs2] at ho
        | some r =>
          obtain ⟨o1, i⟩ := r
          simp [takeNextOrderForBot, hex, hs, hs2] at ho
          rw [hs2] at hn
          have := List.find?_some hn.symm
          simpa [ho] using (isPending_iff w o1).mp this
    refine ⟨key, ?_⟩
    have hord : (takeNextOrderForBot w b).2.orders = w.orders := by
      unfold takeNextOrderForBot
      simp only [hex]
      cases scanPending w w.c.vipOrders 0 with
      | some r => rfl
      | none =>
        cases scanPending w w.c.normalOrders 0 with
        | some r => rfl
        | none => rfl
    rw [hord]; exact key

/-- Witness of C1: in `demoIdle` bot 1 is registered and is handed the VIP order
(address 1) although the Normal order 0 is older. -/
theorem takeNextOrderForBot_priority_witness :
    (takeNextOrderForBot demoIdle 1).1 = (some 1, true) :=
  (takeNextOrderForBot_priority demoIdle 1 ⟨1, by decide, rfl⟩).1 1 (by decide)

/-! ## Stop, insertOrderBack and RemoveBot -/

theorem Stop_orders (w : World) (b : BotPtr) : (Stop w b).orders = w.orders := by
  unfold Stop; dsimp only; split_ifs <;> rfl

theorem Stop_c (w : World) (b : BotPtr) : (Stop w b).c = w.c := by
  unfold Stop; dsimp only; split_ifs <;> rfl

theorem Stop_orderTop (w : World) (b : BotPtr) : (Stop w b).orderTop = w.orderTop := by
  unfold Stop; dsimp only; split_ifs <;> rfl

theorem Stop_botTop (w : World) (b : BotPtr) : (Stop w b).botTop = w.botTop := by
  unfold Stop; dsimp only; split_ifs <;> rfl

theorem Stop_botObjs (w : World) (b p : BotPtr) :
    ((Stop w b).botObjs p).Status = (w.botObjs p).Status ∧
    ((Stop w b).botObjs p).CurrentOrder = (w.botObjs p).CurrentOrder ∧
    ((Stop w b).botObjs p).ID = (w.botObjs p).ID := by
  unfold Stop
  dsimp only
  split_ifs <;> by_cases hp : p = b <;> simp [Function.update_apply, hp]

theorem insertOrderBack_frame (w : World) (o : OrderPtr) :
    (insertOrderBack w o).orders = w.orders ∧ (insertOrderBack w o).orderTop = w.orderTop ∧
    (insertOrderBack w o).botObjs = w.botObjs ∧ (insertOrderBack w o).botTop = w.botTop ∧
    (insertOrderBack w o).loops = w.loops ∧ (insertOrderBack w o).c.bots = w.c.bots ∧
    (insertOrderBack w o).c.orderCounter = w.c.orderCounter ∧
    (insertOrderBack w o).c.botCounter = w.c.botCounter := by
  unfold insertOrderBack; split <;> simp

theorem insertOrderBack_vip (w : World) (o : OrderPtr) (h : (w.orders o).Typ = OrderType.VIP) :
    (insertOrderBack w o).c.vipOrders = w.c.vipOrders ++ [o] ∧
    (insertOrderBack w o).c.normalOrders = w.c.normalOrders := by
  simp [insertOrderBack, Order.IsVIP, h]

theorem insertOrderBack_normal (w : World) (o : OrderPtr)
    (h : (w.orders o).Typ = OrderType.Normal) :
    (insertOrderBack w o).c.vipOrders = w.c.vipOrders ∧
    (insertOrderBack w o).c.normalOrders = w.c.normalOrders ++ [o] := by
  simp [insertOrderBack, Order.IsVIP, h]

theorem RemoveBot_empty (w : World) (h : w.c.bots.getLast? = none) : RemoveBot w = (false, w) := by
  simp [RemoveBot, h]

theorem RemoveBot_busy (w : World) (b : BotPtr) (o : OrderPtr)
    (hlast : w.c.bots.getLast? = some b)
    (hproc : (w.botObjs b).Status = BotStatus.PROCESSING)
    (hcur : (w.botObjs b).CurrentOrder = some o) :
    RemoveBot w = (true, requeued w b o) := by
  have h3 := (Stop_botObjs { w with c := { w.c with bots := w.c.bots.dropLast } } b b).2.1
  simp only [hcur] at h3
  simp [RemoveBot, hlast, Bot.IsProcessing, hproc, hcur, assignOrderToBot, requeued, h3]

theorem RemoveBot_idle (w : World) (b : BotPtr)
    (hlast : w.c.bots.getLast? = some b)
    (hidle : ¬ ((w.botObjs b).Status = BotStatus.PROCESSING ∧ (w.botObjs b).CurrentOrder.isSome)) :
    RemoveBot w = (true, { w with c := { w.c with bots := w.c.bots.dropLast } }) := by
  have : ((w.botObjs b).IsProcessing && (w.botObjs b).CurrentOrder.isSome) = false := by
    by_contra hc
    simp only [Bool.not_eq_false, Bool.and_eq_true, Bot.IsProcessing, beq_iff_eq] at hc
    exact hidle hc
  simp [RemoveBot, hlast, this, assignOrderToBot]

theorem requeued_frame (w : World) (b : BotPtr) (o : OrderPtr) :
    (requeued w b o).orders = Function.update w.orders o (w.orders o).SetPending ∧
    (requeued w b o).orderTop = w.orderTop ∧ (requeued w b o).botTop = w.botTop ∧
    (requeued w b o).c.bots = w.c.bots.dropLast ∧
    (requeued w b o).c.orderCounter = w.c.orderCounter ∧
    (requeued w b o).c.botCounter = w.c.botCounter ∧
    (∀ p, ((requeued w b o).botObjs p).Status = (w.botObjs p).Status ∧
      ((requeued w b o).botObjs p).CurrentOrder = (w.botObjs p).CurrentOrder ∧
      ((requeued w b o).botObjs p).ID = (w.botObjs p).ID) := by
  unfold requeued
  simp only [insertOrderBack_frame, Stop_orders, Stop_orderTop, Stop_botTop, Stop_c,
    Stop_botObjs, implies_true, and_self]

theorem requeued_queues (w : World) (b : BotPtr) (o : OrderPtr) :
    ((w.orders o).Typ = OrderType.VIP →
      (requeued w b o).c.vipOrders = w.c.vipOrders ++ [o] ∧
      (requeued w b o).c.normalOrders = w.c.normalOrders) ∧
    ((w.orders o).Typ = OrderType.Normal →
      (requeued w b o).c.normalOrders = w.c.normalOrders ++ [o] ∧
      (requeued w b o).c.vipOrders = w.c.vipOrders) := by
  unfold requeued
  constructor
  · intro h
    have := insertOrderBack_vip
      { Stop { w with c := { w.c with bots := w.c.bots.dropLast } } b with
        orders := Function.update
          (Stop { w with c := { w.c with bots := w.c.bots.dropLast } } b).orders o
          ((Stop { w with c := { w.c with bots := w.c.bots.dropLast } } b).orders o).SetPending }
      o (by simp [Stop_orders, Order.SetPending, h])
    simpa [Stop_c] using this
  · intro h
    have := insertOrderBack_normal
      { Stop { w with c := { w.c with bots := w.c.bots.dropLast } } b with
        orders := Function.update
          (Stop { w with c := { w.c with bots := w.c.bots.dropLast } } b).orders o
          ((Stop { w with c := { w.c with bots := w.c.bots.dropLast } } b).orders o).SetPending }
      o (by simp [Stop_orders, Order.SetPending, h])
    simpa [Stop_c, and_comm] using this

theorem OrderType_cases (t : OrderType) : t = OrderType.VIP ∨ t = OrderType.Normal := by
  cases t <;> simp

/-- C7: when the last registered bot is PROCESSING with current order `o`,
RemoveBot returns true, sets the status of `o` to PENDING, appends `o` at the tail
of the queue of its class and leaves the other queue as it was, and afterwards
GetPendingOrders contains `o`. -/
theorem RemoveBot_requeues_current (w : World) (b : BotPtr) (o : OrderPtr)
    (hlast : w.c.bots.getLast? = some b)
    (hproc : (w.botObjs b).Status = BotStatus.PROCESSING)
    (hcur : (w.botObjs b).CurrentOrder = some o) :
    (RemoveBot w).1 = true ∧
    ((RemoveBot w).2.orders o).Status = OrderStatus.PENDING ∧
    ((w.orders o).Typ = OrderType.VIP →
      (RemoveBot w).2.c.vipOrders = w.c.vipOrders ++ [o] ∧
      (RemoveBot w).2.c.normalOrders = w.c.normalOrders) ∧
    ((w.orders o).Typ = OrderType.Normal →
      (RemoveBot w).2.c.normalOrders = w.c.normalOrders ++ [o] ∧
      (RemoveBot w).2.c.vipOrders = w.c.vipOrders) ∧
    o ∈ GetPendingOrders (RemoveBot w).2 := by
  rw [RemoveBot_busy w b o hlast hproc hcur]
  have hq := requeued_queues w b o
  have hst : ((requeued w b o).orders o).Status = OrderStatus.PENDING := by
    rw [(requeued_frame w b o).1]; simp [Order.SetPending]
  refine ⟨rfl, hst, hq.1, hq.2, ?_⟩
  have hp : (requeued w b o).isPending o = true := (isPending_iff _ _).mpr hst
  rcases OrderType_cases (w.orders o).Typ with h | h
  · simp [GetPendingOrders, (hq.1 h).1, hp]
  · simp [GetPendingOrders, (hq.2 h).1, hp]

/-- Witness of C7: in `demoBusy` the last bot is processing the VIP order at
address 1; removing it puts that order back at the tail of the VIP queue. -/
theorem RemoveBot_requeues_current_witness :
    (RemoveBot demoBusy).1 = true ∧
    ((RemoveBot demoBusy).2.orders 1).Status = OrderStatus.PENDING ∧
    (RemoveBot demoBusy).2.c.vipOrders = demoBusy.c.vipOrders ++ [1] ∧
    1 ∈ GetPendingOrders (RemoveBot demoBusy).2 :=
  have h := RemoveBot_requeues_current demoBusy 1 1 (by decide) (by decide) (by decide)
  ⟨h.1, h.2.1, (h.2.2.1 (by decide)).1, h.2.2.2.2⟩

/-- C8: RemoveBot returns false exactly when the registry is empty, and then the
whole state (registry, queues, counters, heaps) is the one before the call. -/
theorem RemoveBot_false_iff_empty (w : World) :
    ((RemoveBot w).1 = false ↔ w.c.bots = []) ∧
    ((RemoveBot w).1 = false → (RemoveBot w).2 = w) := by
  cases hl : w.c.bots.getLast? with
  | none =>
    rw [RemoveBot_empty w hl]
    exact ⟨⟨fun _ => List.getLast?_eq_none_iff.mp hl, fun _ => rfl⟩, fun _ => rfl⟩
  | some b =>
    have hne : w.c.bots ≠ [] := by
      intro h; rw [h] at hl; simp at hl
    have h1 : (RemoveBot w).1 = true := by
      simp only [RemoveBot, hl]
    simp [h1, hne]

/-- C9: on a registry `bs ++ [b]` RemoveBot returns true and leaves the registry
`bs`, whatever the bots are doing; the bot counter keeps its value. -/
theorem RemoveBot_removes_newest (w : World) (bs : List BotPtr) (b : BotPtr)
    (hreg : w.c.bots = bs ++ [b]) :
    (RemoveBot w).1 = true ∧ (RemoveBot w).2.c.bots = bs ∧
    (RemoveBot w).2.c.botCounter = w.c.botCounter := by
  have hlast : w.c.bots.getLast? = some b := by simp [hreg]
  have hdrop : w.c.bots.dropLast = bs := by simp [hreg]
  by_cases hbusy : (w.botObjs b).Status = BotStatus.PROCESSING ∧ (w.botObjs b).CurrentOrder.isSome
  · obtain ⟨hp, hc⟩ := hbusy
    obtain ⟨o, ho⟩ := Option.isSome_iff_exists.mp hc
    rw [RemoveBot_busy w b o hlast hp ho]
    have hf := requeued_frame w b o
    exact ⟨rfl, by rw [hf.2.2.2.1, hdrop], hf.2.2.2.2.2.1⟩
  · rw [RemoveBot_idle w b hlast hbusy]
    exact ⟨rfl, hdrop, rfl⟩

/-- Witness of C9: `demoBusy` has the registry `[0, 1]`; RemoveBot leaves `[0]`. -/
theorem RemoveBot_removes_newest_witness :
    (RemoveBot demoBusy).1 = true ∧ (RemoveBot demoBusy).2.c.bots = [0] ∧
    (RemoveBot demoBusy).2.c.botCounter = demoBusy.c.botCounter :=
  RemoveBot_removes_newest demoBusy [0] 1 (by decide)

theorem Stop_other (w : World) (b p : BotPtr) (hp : p ≠ b) :
    (Stop w b).botObjs p = w.botObjs p ∧ (Stop w b).loops p = w.loops p := by
  unfold Stop
  dsimp only
  split_ifs <;> simp [Function.update_apply, hp]

theorem requeued_other (w : World) (b : BotPtr) (o : OrderPtr) (p : BotPtr) (hp : p ≠ b) :
    (requeued w b o).botObjs p = w.botObjs p ∧ (requeued w b o).loops p = w.loops p := by
  unfold requeued
  rw [(insertOrderBack_frame _ o).2.2.1, (insertOrderBack_frame _ o).2.2.2.2.1]
  exact Stop_other _ b p hp

/-- What RemoveBot leaves alone in every state: the whole bot object (status,
current order, cancellation context) and the pull-loop of every bot other than
the removed one; the status and the current order of the removed bot too; every
order object other than the current order of the removed bot; and each queue is
either unchanged or the old queue followed by the current order of the removed
bot, so every queued order keeps its place.  The current order of the removed
bot is the one object it writes, whoever else holds it. -/
theorem RemoveBot_frame (w : World) :
    (∀ p, w.c.bots.getLast? ≠ some p →
      (RemoveBot w).2.botObjs p = w.botObjs p ∧ (RemoveBot w).2.loops p = w.loops p) ∧
    (∀ p, ((RemoveBot w).2.botObjs p).Status = (w.botObjs p).Status ∧
      ((RemoveBot w).2.botObjs p).CurrentOrder = (w.botObjs p).CurrentOrder) ∧
    (∀ q, (∀ b, w.c.bots.getLast? = some b → (w.botObjs b).CurrentOrder ≠ some q) →
      (RemoveBot w).2.orders q = w.orders q) ∧
    ((RemoveBot w).2.c.vipOrders = w.c.vipOrders ∨
      ∃ b o, w.c.bots.getLast? = some b ∧ (w.botObjs b).CurrentOrder = some o ∧
        (RemoveBot w).2.c.vipOrders = w.c.vipOrders ++ [o]) ∧
    ((RemoveBot w).2.c.normalOrders = w.c.normalOrders ∨
      ∃ b o, w.c.bots.getLast? = some b ∧ (w.botObjs b).CurrentOrder = some o ∧
        (RemoveBot w).2.c.normalOrders = w.c.normalOrders ++ [o]) := by
  cases hl : w.c.bots.getLast? with
  | none =>
    rw [RemoveBot_empty w hl]
    simp
  | some b =>
    by_cases hbusy : (w.botObjs b).Status = BotStatus.PROCESSING ∧
        (w.botObjs b).CurrentOrder.isSome
    · obtain ⟨hp, hc⟩ := hbusy
      obtain ⟨o, ho⟩ := Option.isSome_iff_exists.mp hc
      rw [RemoveBot_busy w b o hl hp ho]
      have hf := requeued_frame w b o
      have hq := requeued_queues w b o
      refine ⟨fun p hne => requeued_other w b o p (fun e => hne (by rw [e])),
        fun p => ⟨(hf.2.2.2.2.2.2 p).1, (hf.2.2.2.2.2.2 p).2.1⟩, ?_, ?_, ?_⟩
      · intro q hq2
        have hne : q ≠ o := by
          intro h; subst h; exact hq2 b rfl ho
        rw [hf.1, Function.update_noteq hne]
      · rcases OrderType_cases (w.orders o).Typ with h | h
        · exact Or.inr ⟨b, o, rfl, ho, (hq.1 h).1⟩
        · exact Or.inl (hq.2 h).2
      · rcases OrderType_cases (w.orders o).Typ with h | h
        · exact Or.inl (hq.1 h).2
        · exact Or.inr ⟨b, o, rfl, ho, (hq.2 h).1⟩
    · rw [RemoveBot_idle w b hl hbusy]
      simp

/-! ## The outcomes of takeNextOrderForBot -/

theorem removeAt_findIdx (p : OrderPtr → Bool) (q : List OrderPtr) (o : OrderPtr)
    (h : q.find? p = some o) : removeAt q (q.findIdx p) = q.erase o := by
  induction q with
  | nil => simp at h
  | cons x rest ih =>
    by_cases hx : p x = true
    · have hxo : x = o := by simpa [List.find?_cons, hx] using h
      subst hxo
      simp [removeAt, List.findIdx_cons, hx]
    · simp only [Bool.not_eq_true] at hx
      have hrest : rest.find? p = some o := by simpa [List.find?_cons, hx] using h
      have hpo : p o = true := List.find?_some hrest
      have hne : x ≠ o := by
        intro e; subst e; rw [hx] at hpo; exact Bool.noConfusion hpo
      have := ih hrest
      simp only [removeAt] at this
      simp [removeAt, List.findIdx_cons, hx, List.erase_cons, hne, this]

theorem botExists_iff (w : World) (b : BotPtr) :
    (w.c.bots.any fun e => (w.botObjs e).ID == (w.botObjs b).ID) = true ↔ registered w b := by
  simp [registered, List.any_eq_true]

/-- The four outcomes of takeNextOrderForBot: withdrawn, none, an order taken from
the VIP queue, an order taken from the Normal queue.  Taking removes the first
occurrence of the order from its queue. -/
theorem takeNextOrderForBot_cases (w : World) (b : BotPtr) :
    (¬ registered w b ∧ takeNextOrderForBot w b = ((none, false), w)) ∨
    (registered w b ∧ w.c.vipOrders.find? w.isPending = none ∧
      w.c.normalOrders.find? w.isPending = none ∧
      takeNextOrderForBot w b = ((none, true), w)) ∨
    (registered w b ∧ ∃ o, w.c.vipOrders.find? w.isPending = some o ∧
      takeNextOrderForBot w b
        = ((some o, true), { w with c := { w.c with vipOrders := w.c.vipOrders.erase o } })) ∨
    (registered w b ∧ ∃ o, w.c.vipOrders.find? w.isPending = none ∧
      w.c.normalOrders.find? w.isPending = some o ∧
      takeNextOrderForBot w b
        = ((some o, true),
            { w with c := { w.c with normalOrders := w.c.normalOrders.erase o } })) := by
  by_cases hreg : registered w b
  · have hex := (botExists_iff w b).mpr hreg
    cases hv : w.c.vipOrders.find? w.isPending with
    | some o =>
      refine Or.inr (Or.inr (Or.inl ⟨hreg, o, rfl, ?_⟩))
      simp [takeNextOrderForBot, hex, scanPending_eq, hv, removeAt_findIdx _ _ _ hv]
    | none =>
      cases hn : w.c.normalOrders.find? w.isPending with
      | some o =>
        refine Or.inr (Or.inr (Or.inr ⟨hreg, o, rfl, rfl, ?_⟩))
        simp [takeNextOrderForBot, hex, scanPending_eq, hv, hn, removeAt_findIdx _ _ _ hn]
      | none =>
        refine Or.inr (Or.inl ⟨hreg, rfl, rfl, ?_⟩)
        simp [takeNextOrderForBot, hex, scanPending_eq, hv, hn]
  · have hex : (w.c.bots.any fun e => (w.botObjs e).ID == (w.botObjs b).ID) = false := by
      by_contra hc
      exact hreg ((botExists_iff w b).mp (by simpa using hc))
    exact Or.inl ⟨hreg, by simp [takeNextOrderForBot, hex]⟩

/-! ## Inversion of the atomic steps -/

theorem step_takeNext (w w1 : World) (b : BotPtr) (h : step w (Action.takeNext b) = some w1) :
    w.loops b = Loop.poll ∧
    ((¬ registered w b ∧ w1 = w.goto b Loop.exited) ∨
     (registered w b ∧ w.c.vipOrders.find? w.isPending = none ∧
       w.c.normalOrders.find? w.isPending = none ∧ w1 = w.goto b Loop.idleWait) ∨
     (registered w b ∧ ∃ o, w.c.vipOrders.find? w.isPending = some o ∧
       w1 = World.goto { w with c := { w.c with vipOrders := w.c.vipOrders.erase o } } b
         (Loop.holding o)) ∨
     (registered w b ∧ ∃ o, w.c.vipOrders.find? w.isPending = none ∧
       w.c.normalOrders.find? w.isPending = some o ∧
       w1 = World.goto { w with c := { w.c with normalOrders := w.c.normalOrders.erase o } } b
         (Loop.holding o))) := by
  cases hl : w.loops b <;> simp only [step, hl] at h <;> try contradiction
  refine ⟨rfl, ?_⟩
  rcases takeNextOrderForBot_cases w b with ⟨hr, ht⟩ | ⟨hr, hv, hn, ht⟩ | ⟨hr, o, hv, ht⟩ |
    ⟨hr, o, hv, hn, ht⟩
  · rw [ht] at h
    exact Or.inl ⟨hr, (Option.some.inj h).symm⟩
  · rw [ht] at h
    exact Or.inr (Or.inl ⟨hr, hv, hn, (Option.some.inj h).symm⟩)
  · rw [ht] at h
    exact Or.inr (Or.inr (Or.inl ⟨hr, o, hv, (Option.some.inj h).symm⟩))
  · rw [ht] at h
    exact Or.inr (Or.inr (Or.inr ⟨hr, o, hv, hn, (Option.some.inj h).symm⟩))

theorem step_backoff (w w1 : World) (b : BotPtr) (h : step w (Action.backoff b) = some w1) :
    w.loops b = Loop.idleWait ∧ w1 = w.goto b Loop.poll := by
  cases hl : w.loops b <;> simp only [step, hl] at h <;> try contradiction
  exact ⟨rfl, (Option.some.inj h).symm⟩

theorem step_startRun (w w1 : World) (b : BotPtr) (h : step w (Action.startRun b) = some w1) :
    ∃ o, w.loops b = Loop.holding o ∧
      w1 = (StartProcessingBegin w b o).goto b (Loop.running o) := by
  cases hl : w.loops b <;> simp only [step, hl] at h <;> try contradiction
  exact ⟨_, rfl, (Option.some.inj h).symm⟩

theorem step_endCompleted (w w1 : World) (b : BotPtr) (now : Nat)
    (h : step w (Action.endCompleted b now) = some w1) :
    ∃ o, w.loops b = Loop.running o ∧
      w1 = (StartProcessingComplete now w b o).goto b (Loop.finished o true) := by
  cases hl : w.loops b <;> simp only [step, hl] at h <;> try contradiction
  exact ⟨_, rfl, (Option.some.inj h).symm⟩

theorem step_endCancelled (w w1 : World) (b : BotPtr)
    (h : step w (Action.endCancelled b) = some w1) :
    ∃ o, w.loops b = Loop.running o ∧ (w.botObjs b).ctxDone = true ∧
      w1 = (StartProcessingCancelled w b o).goto b (Loop.finished o false) := by
  cases hl : w.loops b <;> simp only [step, hl] at h <;> try contradiction
  by_cases hc : (w.botObjs b).ctxDone = true
  · simp only [hc, if_true] at h
    exact ⟨_, rfl, hc, (Option.some.inj h).symm⟩
  · simp [hc] at h

theorem step_returnToQueue (w w1 : World) (b : BotPtr)
    (h : step w (Action.returnToQueue b) = some w1) :
    ∃ o done, w.loops b = Loop.finished o done ∧
      w1 = (returnOrderToQueue w o).goto b Loop.poll := by
  cases hl : w.loops b <;> simp only [step, hl] at h <;> try contradiction
  exact ⟨_, _, rfl, (Option.some.inj h).symm⟩

/-! ## Well-formedness is kept by every step -/

theorem WF_NewController : WF NewController := by
  constructor <;> simp [NewController, Loop.held]

theorem WF.frame {w w1 : World} (h : WF w)
    (hTop : w1.orderTop = w.orderTop) (hCnt : w1.c.orderCounter = w.c.orderCounter)
    (hObj : ∀ x, (w1.orders x).Typ = (w.orders x).Typ ∧ (w1.orders x).ID = (w.orders x).ID)
    (hVip : ∀ x ∈ w1.c.vipOrders,
      x ∈ w.c.vipOrders ∨ (x < w.orderTop ∧ (w.orders x).Typ = OrderType.VIP))
    (hNorm : ∀ x ∈ w1.c.normalOrders,
      x ∈ w.c.normalOrders ∨ (x < w.orderTop ∧ (w.orders x).Typ = OrderType.Normal))
    (hHeld : ∀ b x, (w1.loops b).held = some x → x < w.orderTop)
    (hCur : ∀ b x, (w1.botObjs b).CurrentOrder = some x → x < w.orderTop)
    (hBTop : w1.botTop = w.botTop) (hBCnt : w1.c.botCounter = w.c.botCounter)
    (hBId : ∀ b, (w1.botObjs b).ID = (w.botObjs b).ID)
    (hReg : ∀ b ∈ w1.c.bots, b ∈ w.c.bots)
    (hLoop : ∀ b, w.botTop ≤ b → w1.loops b = Loop.exited) : WF w1 where
  vipTyped := by
    intro o ho
    rw [hTop, (hObj o).1]
    rcases hVip o ho with hm | hm
    · exact h.vipTyped o hm
    · exact hm
  normalTyped := by
    intro o ho
    rw [hTop, (hObj o).1]
    rcases hNorm o ho with hm | hm
    · exact h.normalTyped o hm
    · exact hm
  heldAlloc := by
    intro b o hb
    rw [hTop]; exact hHeld b o hb
  currentAlloc := by
    intro b o hb
    rw [hTop]; exact hCur b o hb
  ids := by
    intro o ho
    rw [(hObj o).2]; exact h.ids o (hTop ▸ ho)
  counter := by rw [hCnt, hTop]; exact h.counter
  botIds := by
    intro b hb
    rw [hBId]; exact h.botIds b (hBTop ▸ hb)
  botCounter := by rw [hBCnt, hBTop]; exact h.botCounter
  regAlloc := by
    intro b hb
    rw [hBTop]; exact h.regAlloc b (hReg b hb)
  loopsAlloc := by
    intro b hb
    exact hLoop b (hBTop ▸ hb)

theorem goto_loops (w : World) (b p : BotPtr) (l : Loop) :
    (w.goto b l).loops p = if p = b then l else w.loops p := by
  simp [World.goto, Function.update_apply]

theorem WF.live {w : World} (h : WF w) {b : BotPtr} (hb : w.loops b ≠ Loop.exited) :
    b < w.botTop := by
  by_contra hc
  exact hb (h.loopsAlloc b (Nat.le_of_not_lt hc))

/-- Moving the program counter of a live pull-loop keeps well-formedness when the
order it holds afterwards is allocated. -/
theorem WF.goto {w : World} (h : WF w) (b : BotPtr) (l : Loop)
    (hb : w.loops b ≠ Loop.exited) (hl : ∀ x, l.held = some x → x < w.orderTop) :
    WF (w.goto b l) := by
  refine h.frame rfl rfl (fun _ => ⟨rfl, rfl⟩) (fun x hx => Or.inl hx) (fun x hx => Or.inl hx)
    ?_ h.currentAlloc rfl rfl (fun _ => rfl) (fun _ hx => hx) ?_
  · intro p x hp
    rw [goto_loops] at hp
    split_ifs at hp
    · exact hl x hp
    · exact h.heldAlloc p x hp
  · intro p hp
    rw [goto_loops]
    split_ifs with e
    · subst e
      exact absurd (h.loopsAlloc p hp) hb
    · exact h.loopsAlloc p hp

/-- Rewriting the order object at `o` without touching its class and id keeps
well-formedness. -/
theorem WF.setOrder {w : World} (h : WF w) (o : OrderPtr) (x : Order)
    (ht : x.Typ = (w.orders o).Typ) (hi : x.ID = (w.orders o).ID) :
    WF { w with orders := Function.update w.orders o x } := by
  refine h.frame rfl rfl ?_ (fun x hx => Or.inl hx) (fun x hx => Or.inl hx)
    h.heldAlloc h.currentAlloc rfl rfl (fun _ => rfl) (fun _ hx => hx) h.loopsAlloc
  intro y
  by_cases e : y = o
  · subst e; simp [ht, hi]
  · simp [Function.update_noteq e]

/-- Rewriting the bot object at `b` without touching its id keeps well-formedness
when its new current order is allocated. -/
theorem WF.setBot {w : World} (h : WF w) (b : BotPtr) (x : Bot)
    (hi : x.ID = (w.botObjs b).ID) (hc : ∀ o, x.CurrentOrder = some o → o < w.orderTop) :
    WF { w with botObjs := Function.update w.botObjs b x } := by
  refine h.frame rfl rfl (fun _ => ⟨rfl, rfl⟩) (fun x hx => Or.inl hx) (fun x hx => Or.inl hx)
    h.heldAlloc ?_ rfl rfl ?_ (fun _ hx => hx) h.loopsAlloc
  · intro p o hp
    by_cases e : p = b
    · subst e
      simp only [Function.update_same] at hp
      exact hc o hp
    · simp only [Function.update_noteq e] at hp
      exact h.currentAlloc p o hp
  · intro p
    by_cases e : p = b
    · subst e; simp [hi]
    · simp [Function.update_noteq e]

theorem WF.insertOrderBack {w : World} (h : WF w) (o : OrderPtr) (ho : o < w.orderTop) :
    WF (insertOrderBack w o) := by
  have hf := insertOrderBack_frame w o
  refine h.frame hf.2.1 hf.2.2.2.2.2.2.1 (fun _ => by rw [hf.1]; exact ⟨rfl, rfl⟩) ?_ ?_
    (by rw [hf.2.2.2.2.1]; exact h.heldAlloc) (by rw [hf.2.2.1]; exact h.currentAlloc)
    hf.2.2.2.1 hf.2.2.2.2.2.2.2 (fun _ => by rw [hf.2.2.1]) (fun _ hx => by rw [hf.2.2.2.2.2.1] at hx; exact hx)
    (by rw [hf.2.2.2.2.1]; exact h.loopsAlloc)
  · intro x hx
    rcases OrderType_cases (w.orders o).Typ with ht | ht
    · rw [(insertOrderBack_vip w o ht).1] at hx
      rcases List.mem_append.mp hx with hm | hm
      · exact Or.inl hm
      · rw [List.mem_singleton.mp hm]; exact Or.inr ⟨ho, ht⟩
    · rw [(insertOrderBack_normal w o ht).1] at hx
      exact Or.inl hx
  · intro x hx
    rcases OrderType_cases (w.orders o).Typ with ht | ht
    · rw [(insertOrderBack_vip w o ht).2] at hx
      exact Or.inl hx
    · rw [(insertOrderBack_normal w o ht).2] at hx
      rcases List.mem_append.mp hx with hm | hm
      · exact Or.inl hm
      · rw [List.mem_singleton.mp hm]; exact Or.inr ⟨ho, ht⟩

theorem WF.setQueues {w : World} (h : WF w) (v n : List OrderPtr) (bs : List BotPtr)
    (hv : ∀ x ∈ v, x ∈ w.c.vipOrders) (hn : ∀ x ∈ n, x ∈ w.c.normalOrders)
    (hb : ∀ x ∈ bs, x ∈ w.c.bots) :
    WF { w with c := { w.c with vipOrders := v, normalOrders := n, bots := bs } } :=
  h.frame rfl rfl (fun _ => ⟨rfl, rfl⟩) (fun x hx => Or.inl (hv x hx))
    (fun x hx => Or.inl (hn x hx)) h.heldAlloc h.currentAlloc rfl rfl (fun _ => rfl)
    hb h.loopsAlloc

theorem WF.createNormal {w : World} (h : WF w) (now : Nat) : WF (CreateNormalOrder now w).2 where
  vipTyped := by
    intro o ho
    have := h.vipTyped o ho
    have hne : o ≠ w.orderTop := Nat.ne_of_lt this.1
    simp only [CreateNormalOrder, assignOrderToBot, Function.update_noteq hne]
    exact ⟨Nat.lt_succ_of_lt this.1, this.2⟩
  normalTyped := by
    intro o ho
    simp only [CreateNormalOrder, assignOrderToBot] at ho ⊢
    rcases List.mem_append.mp ho with hm | hm
    · have := h.normalTyped o hm
      have hne : o ≠ w.orderTop := Nat.ne_of_lt this.1
      rw [Function.update_noteq hne]
      exact ⟨Nat.lt_succ_of_lt this.1, this.2⟩
    · rw [List.mem_singleton.mp hm]
      simp [NewOrder]
  heldAlloc := fun b o hb => Nat.lt_succ_of_lt (h.heldAlloc b o hb)
  currentAlloc := fun b o hb => Nat.lt_succ_of_lt (h.currentAlloc b o hb)
  ids := by
    intro o ho
    simp only [CreateNormalOrder, assignOrderToBot] at ho ⊢
    by_cases e : o = w.orderTop
    · subst e; simp [NewOrder, h.counter]
    · rw [Function.update_noteq e]
      exact h.ids o (by omega)
  counter := by simp [CreateNormalOrder, assignOrderToBot, h.counter]
  botIds := h.botIds
  botCounter := h.botCounter
  regAlloc := h.regAlloc
  loopsAlloc := h.loopsAlloc

theorem WF.createVIP {w : World} (h : WF w) (now : Nat) : WF (CreateVIPOrder now w).2 where
  vipTyped := by
    intro o ho
    simp only [CreateVIPOrder, assignOrderToBot] at ho ⊢
    rcases List.mem_append.mp ho with hm | hm
    · have := h.vipTyped o hm
      have hne : o ≠ w.orderTop := Nat.ne_of_lt this.1
      rw [Function.update_noteq hne]
      exact ⟨Nat.lt_succ_of_lt this.1, this.2⟩
    · rw [List.mem_singleton.mp hm]
      simp [NewOrder]
  normalTyped := by
    intro o ho
    have := h.normalTyped o ho
    have hne : o ≠ w.orderTop := Nat.ne_of_lt this.1
    simp only [CreateVIPOrder, assignOrderToBot, Function.update_noteq hne]
    exact ⟨Nat.lt_succ_of_lt this.1, this.2⟩
  heldAlloc := fun b o hb => Nat.lt_succ_of_lt (h.heldAlloc b o hb)
  currentAlloc := fun b o hb => Nat.lt_succ_of_lt (h.currentAlloc b o hb)
  ids := by
    intro o ho
    simp only [CreateVIPOrder, assignOrderToBot] at ho ⊢
    by_cases e : o = w.orderTop
    · subst e; simp [NewOrder, h.counter]
    · rw [Function.update_noteq e]
      exact h.ids o (by omega)
  counter := by simp [CreateVIPOrder, assignOrderToBot, h.counter]
  botIds := h.botIds
  botCounter := h.botCounter
  regAlloc := h.regAlloc
  loopsAlloc := h.loopsAlloc

theorem WF.addBot {w : World} (h : WF w) (now : Nat) : WF (AddBot now w).2 where
  vipTyped := h.vipTyped
  normalTyped := h.normalTyped
  heldAlloc := by
    intro b o hb
    simp only [AddBot, Function.update_apply] at hb
    split_ifs at hb
    · simp [Loop.held] at hb
    · exact h.heldAlloc b o hb
  currentAlloc := by
    intro b o hb
    simp only [AddBot, Function.update_apply] at hb
    split_ifs at hb
    · simp [NewBot] at hb
    · exact h.currentAlloc b o hb
  ids := h.ids
  counter := h.counter
  botIds := by
    intro b hb
    simp only [AddBot] at hb ⊢
    by_cases e : b = w.botTop
    · subst e; simp [NewBot, h.botCounter]
    · rw [Function.update_noteq e]
      exact h.botIds b (by omega)
  botCounter := by simp [AddBot, h.botCounter]
  regAlloc := by
    intro b hb
    simp only [AddBot] at hb ⊢
    rcases List.mem_append.mp hb with hm | hm
    · exact Nat.lt_succ_of_lt (h.regAlloc b hm)
    · rw [List.mem_singleton.mp hm]; exact Nat.lt_succ_self _
  loopsAlloc := by
    intro b hb
    simp only [AddBot] at hb ⊢
    have e : b ≠ w.botTop := by omega
    rw [Function.update_noteq e]
    exact h.loopsAlloc b (by omega)

theorem Stop_loops (w : World) (b p : BotPtr) :
    (Stop w b).loops p = w.loops p ∨ (Stop w b).loops p = Loop.exited := by
  unfold Stop
  dsimp only
  split_ifs <;> by_cases hp : p = b <;> simp [Function.update_apply, hp]

theorem WF.stop {w : World} (h : WF w) (b : BotPtr) : WF (Stop w b) := by
  refine h.frame (Stop_orderTop w b) (by rw [Stop_c])
    (fun _ => by rw [Stop_orders]; exact ⟨rfl, rfl⟩)
    (fun x hx => Or.inl (by rw [Stop_c] at hx; exact hx))
    (fun x hx => Or.inl (by rw [Stop_c] at hx; exact hx)) ?_ ?_ (Stop_botTop w b)
    (by rw [Stop_c]) (fun p => (Stop_botObjs w b p).2.2)
    (fun x hx => by rw [Stop_c] at hx; exact hx) ?_
  · intro p x hp
    rcases Stop_loops w b p with e | e
    · rw [e] at hp; exact h.heldAlloc p x hp
    · rw [e] at hp; simp [Loop.held] at hp
  · intro p x hp
    rw [(Stop_botObjs w b p).2.1] at hp
    exact h.currentAlloc p x hp
  · intro p hp
    rcases Stop_loops w b p with e | e
    · rw [e]; exact h.loopsAlloc p hp
    · exact e

theorem WF.removeBot {w : World} (h : WF w) : WF (RemoveBot w).2 := by
  have hdrop : WF { w with c := { w.c with bots := w.c.bots.dropLast } } :=
    h.setQueues w.c.vipOrders w.c.normalOrders w.c.bots.dropLast (fun _ hx => hx)
      (fun _ hx => hx) (fun _ hx => (List.dropLast_subset _) hx)
  cases hl : w.c.bots.getLast? with
  | none => rw [RemoveBot_empty w hl]; exact h
  | some b =>
    by_cases hbusy : (w.botObjs b).Status = BotStatus.PROCESSING ∧
        (w.botObjs b).CurrentOrder.isSome
    · obtain ⟨hp, hc⟩ := hbusy
      obtain ⟨o, ho⟩ := Option.isSome_iff_exists.mp hc
      rw [RemoveBot_busy w b o hl hp ho]
      have h3 := hdrop.stop b
      have ho3 :
          o < (Stop { w with c := { w.c with bots := w.c.bots.dropLast } } b).orderTop := by
        rw [Stop_orderTop]; exact h.currentAlloc b o ho
      have h4 := h3.setOrder o
        ((Stop { w with c := { w.c with bots := w.c.bots.dropLast } } b).orders o).SetPending
        rfl rfl
      exact h4.insertOrderBack o ho3
    · rw [RemoveBot_idle w b hl hbusy]
      exact hdrop

/-- Every atomic step keeps well-formedness. -/
theorem WF.step {w w1 : World} (h : WF w) (a : Action) (hs : step w a = some w1) : WF w1 := by
  cases a with
  | createNormal now =>
    simp only [Assignment.step, Option.some.injEq] at hs; subst hs; exact h.createNormal now
  | createVIP now =>
    simp only [Assignment.step, Option.some.injEq] at hs; subst hs; exact h.createVIP now
  | addBot now =>
    simp only [Assignment.step, Option.some.injEq] at hs; subst hs; exact h.addBot now
  | removeBot =>
    simp only [Assignment.step, Option.some.injEq] at hs; subst hs; exact h.removeBot
  | takeNext b =>
    obtain ⟨hl, hc⟩ := step_takeNext w w1 b hs
    have hlive : w.loops b ≠ Loop.exited := by rw [hl]; simp
    rcases hc with ⟨_, e⟩ | ⟨_, _, _, e⟩ | ⟨_, o, hv, e⟩ | ⟨_, o, _, hn, e⟩
    · subst e; exact h.goto b _ hlive (by simp [Loop.held])
    · subst e; exact h.goto b _ hlive (by simp [Loop.held])
    · subst e
      have hmem := List.mem_of_find?_eq_some hv
      refine WF.goto (h.setQueues (w.c.vipOrders.erase o) w.c.normalOrders w.c.bots
        (fun _ hx => List.mem_of_mem_erase hx) (fun _ hx => hx) (fun _ hx => hx)) b _ hlive ?_
      intro x hx
      simp only [Loop.held, Option.some.injEq] at hx
      subst hx
      exact (h.vipTyped _ hmem).1
    · subst e
      have hmem := List.mem_of_find?_eq_some hn
      refine WF.goto (h.setQueues w.c.vipOrders (w.c.normalOrders.erase o) w.c.bots
        (fun _ hx => hx) (fun _ hx => List.mem_of_mem_erase hx) (fun _ hx => hx)) b _ hlive ?_
      intro x hx
      simp only [Loop.held, Option.some.injEq] at hx
      subst hx
      exact (h.normalTyped _ hmem).1
  | backoff b =>
    obtain ⟨hl, e⟩ := step_backoff w w1 b hs
    subst e
    exact h.goto b _ (by rw [hl]; simp) (by simp [Loop.held])
  | startRun b =>
    obtain ⟨o, hl, e⟩ := step_startRun w w1 b hs
    subst e
    have ho : o < w.orderTop := h.heldAlloc b o (by rw [hl]; rfl)
    have h1 := h.setOrder o (w.orders o).SetProcessing rfl rfl
    have h2 := h1.setBot b
      { w.botObjs b with CurrentOrder := some o, Status := BotStatus.PROCESSING }
      rfl (by intro x hx; simp only [Option.some.injEq] at hx; subst hx; exact ho)
    exact WF.goto (w := StartProcessingBegin w b o) h2 b _
      (by show w.loops b ≠ _; rw [hl]; simp)
      (by intro x hx; simp only [Loop.held, Option.some.injEq] at hx; subst hx; exact ho)
  | endCompleted b now =>
    obtain ⟨o, hl, e⟩ := step_endCompleted w w1 b now hs
    subst e
    have ho : o < w.orderTop := h.heldAlloc b o (by rw [hl]; rfl)
    have h1 := h.setOrder o ((w.orders o).SetComplete now) rfl rfl
    have h2 := h1.setBot b { w.botObjs b with Status := BotStatus.IDLE, CurrentOrder := none }
      rfl (by intro x hx; simp at hx)
    exact WF.goto (w := StartProcessingComplete now w b o) h2 b _
      (by show w.loops b ≠ _; rw [hl]; simp)
      (by intro x hx; simp only [Loop.held, Option.some.injEq] at hx; subst hx; exact ho)
  | endCancelled b =>
    obtain ⟨o, hl, _, e⟩ := step_endCancelled w w1 b hs
    subst e
    have ho : o < w.orderTop := h.heldAlloc b o (by rw [hl]; rfl)
    have h1 := h.setOrder o (w.orders o).SetPending rfl rfl
    have h2 := h1.setBot b { w.botObjs b with Status := BotStatus.IDLE, CurrentOrder := none }
      rfl (by intro x hx; simp at hx)
    exact WF.goto (w := StartProcessingCancelled w b o) h2 b _
      (by show w.loops b ≠ _; rw [hl]; simp)
      (by intro x hx; simp only [Loop.held, Option.some.injEq] at hx; subst hx; exact ho)
  | returnToQueue b =>
    obtain ⟨o, done, hl, e⟩ := step_returnToQueue w w1 b hs
    subst e
    have ho : o < w.orderTop := h.heldAlloc b o (by rw [hl]; rfl)
    have h1 := h.insertOrderBack o ho
    exact WF.goto (w := returnOrderToQueue w o) h1 b _
      (by
        show (Assignment.insertOrderBack w o).loops b ≠ _
        rw [(insertOrderBack_frame w o).2.2.2.2.1, hl]; simp)
      (by simp [Loop.held])

theorem run_cons (w : World) (a : Action) (rest : List Action) :
    run w (a :: rest) = (step w a).bind (fun w1 => run w1 rest) := rfl

theorem run_append (w : World) (xs ys : List Action) :
    run w (xs ++ ys) = (run w xs).bind (fun w1 => run w1 ys) := by
  induction xs generalizing w with
  | nil => rfl
  | cons a rest ih =>
    simp only [List.cons_append, run_cons]
    cases step w a with
    | none => rfl
    | some w1 => exact ih w1

/-- Every run keeps well-formedness. -/
theorem WF.run {w w1 : World} (h : WF w) (acts : List Action) (hr : run w acts = some w1) :
    WF w1 := by
  induction acts generalizing w with
  | nil => simp only [Assignment.run, Option.some.injEq] at hr; subst hr; exact h
  | cons a rest ih =>
    rw [run_cons] at hr
    cases hs : Assignment.step w a with
    | none => rw [hs] at hr; contradiction
    | some w2 =>
      rw [hs] at hr
      exact ih (h.step a hs) hr

/-! ## The pending list: classes -/

theorem demoBusy_reached : run NewController demoBusyTrace = some demoBusy :=
  (Option.some_get _).symm

/-- C4: in every state reachable from a new controller, the list returned by
GetPendingOrders never has a Normal order before a VIP order. -/
theorem GetPendingOrders_vip_before_normal (acts : List Action) (w : World)
    (hr : run NewController acts = some w) :
    (GetPendingOrders w).Pairwise
      (fun a b => ¬ ((w.orders a).Typ = OrderType.Normal ∧ (w.orders b).Typ = OrderType.VIP)) := by
  have h := WF_NewController.run acts hr
  unfold GetPendingOrders
  rw [List.pairwise_append]
  refine ⟨?_, ?_, ?_⟩
  · apply List.pairwise_of_forall_mem_list
    intro a ha b _
    have := (h.vipTyped a (List.mem_of_mem_filter ha)).2
    intro hc
    rw [this] at hc
    exact OrderType.noConfusion hc.1
  · apply List.pairwise_of_forall_mem_list
    intro a _ b hb
    have := (h.normalTyped b (List.mem_of_mem_filter hb)).2
    intro hc
    rw [this] at hc
    exact OrderType.noConfusion hc.2
  · intro a ha b _
    have := (h.vipTyped a (List.mem_of_mem_filter ha)).2
    intro hc
    rw [this] at hc
    exact OrderType.noConfusion hc.1

/-- Witness of C4: the state `demoBusy` is reached by `demoBusyTrace`. -/
theorem GetPendingOrders_vip_before_normal_witness :
    (GetPendingOrders demoBusy).Pairwise
      (fun a b => ¬ ((demoBusy.orders a).Typ = OrderType.Normal ∧
        (demoBusy.orders b).Typ = OrderType.VIP)) :=
  GetPendingOrders_vip_before_normal demoBusyTrace demoBusy demoBusy_reached

/-! ## Order ids -/

theorem RemoveBot_orderTop (w : World) : (RemoveBot w).2.orderTop = w.orderTop := by
  cases hl : w.c.bots.getLast? with
  | none => rw [RemoveBot_empty w hl]
  | some b =>
    by_cases hbusy : (w.botObjs b).Status = BotStatus.PROCESSING ∧
        (w.botObjs b).CurrentOrder.isSome
    · obtain ⟨hp, hc⟩ := hbusy
      obtain ⟨o, ho⟩ := Option.isSome_iff_exists.mp hc
      rw [RemoveBot_busy w b o hl hp ho]
      exact (requeued_frame w b o).2.1
    · rw [RemoveBot_idle w b hl hbusy]

/-- Only the create calls allocate an order. -/
theorem step_orderTop (w w1 : World) (a : Action) (hs : step w a = some w1) :
    w1.orderTop = w.orderTop + (if a.isCreate = true then 1 else 0) := by
  cases a with
  | createNormal now => simp only [step, Option.some.injEq] at hs; subst hs; rfl
  | createVIP now => simp only [step, Option.some.injEq] at hs; subst hs; rfl
  | addBot now => simp only [step, Option.some.injEq] at hs; subst hs; rfl
  | removeBot =>
    simp only [step, Option.some.injEq] at hs; subst hs
    simpa [Action.isCreate] using RemoveBot_orderTop w
  | takeNext b =>
    obtain ⟨_, hc⟩ := step_takeNext w w1 b hs
    rcases hc with ⟨_, e⟩ | ⟨_, _, _, e⟩ | ⟨_, o, _, e⟩ | ⟨_, o, _, _, e⟩ <;> subst e <;> rfl
  | backoff b =>
    obtain ⟨_, e⟩ := step_backoff w w1 b hs
    subst e; rfl
  | startRun b =>
    obtain ⟨o, _, e⟩ := step_startRun w w1 b hs
    subst e; rfl
  | endCompleted b now =>
    obtain ⟨o, _, e⟩ := step_endCompleted w w1 b now hs
    subst e; rfl
  | endCancelled b =>
    obtain ⟨o, _, _, e⟩ := step_endCancelled w w1 b hs
    subst e; rfl
  | returnToQueue b =>
    obtain ⟨o, done, _, e⟩ := step_returnToQueue w w1 b hs
    subst e
    exact (insertOrderBack_frame w o).2.1

theorem run_orderTop (w w1 : World) (acts : List Action) (hr : run w acts = some w1) :
    w1.orderTop = w.orderTop + creations acts := by
  induction acts generalizing w with
  | nil => simp only [run, Option.some.injEq] at hr; subst hr; simp [creations]
  | cons a rest ih =>
    rw [run_cons] at hr
    cases hs : step w a with
    | none => rw [hs] at hr; contradiction
    | some w2 =>
      rw [hs] at hr
      rw [ih w2 hr, step_orderTop w w2 a hs]
      unfold creations
      by_cases hc : a.isCreate = true
      · simp [List.filter_cons, hc]; omega
      · simp [List.filter_cons, hc]

/-- C6: after any sequence of operations on a new controller that holds N - 1
create calls, the next create call (of either kind) returns the order at address
N - 1 with id N; the order at address `o` carries the id `o + 1` in every
reachable state, so ids are never changed or reused and no two created orders
share one. -/
theorem order_ids_sequential (acts : List Action) (w : World)
    (hr : run NewController acts = some w) :
    (∀ now, (CreateNormalOrder now w).1 = creations acts ∧
      ((CreateNormalOrder now w).2.orders (CreateNormalOrder now w).1).ID
        = creations acts + 1) ∧
    (∀ now, (CreateVIPOrder now w).1 = creations acts ∧
      ((CreateVIPOrder now w).2.orders (CreateVIPOrder now w).1).ID = creations acts + 1) ∧
    (∀ o, o < creations acts → (w.orders o).ID = o + 1) ∧
    (∀ o1 o2, o1 < creations acts → o2 < creations acts →
      (w.orders o1).ID = (w.orders o2).ID → o1 = o2) := by
  have h := WF_NewController.run acts hr
  have htop : w.orderTop = creations acts := by
    have := run_orderTop NewController w acts hr
    simpa [NewController] using this
  have hcnt : w.c.orderCounter = creations acts := by rw [h.counter, htop]
  refine ⟨?_, ?_, ?_, ?_⟩
  · intro now
    simp [CreateNormalOrder, assignOrderToBot, NewOrder, htop, hcnt]
  · intro now
    simp [CreateVIPOrder, assignOrderToBot, NewOrder, htop, hcnt]
  · intro o ho
    exact h.ids o (htop ▸ ho)
  · intro o1 o2 h1 h2 he
    rw [h.ids o1 (htop ▸ h1), h.ids o2 (htop ▸ h2)] at he
    omega

/-- Witness of C6: `demoBusyTrace` holds three create calls; the next order gets id 4. -/
theorem order_ids_sequential_witness :
    ((CreateVIPOrder 20 demoBusy).2.orders (CreateVIPOrder 20 demoBusy).1).ID = 4 :=
  ((order_ids_sequential demoBusyTrace demoBusy demoBusy_reached).2.1 20).2

/-! ## Creation with no bots -/

theorem createAll_snoc (w : World) (calls : List (OrderType × Nat)) (c : OrderType × Nat) :
    createAll w (calls ++ [c])
      = ((createAll w calls).1 ++ [(createOrder c.1 c.2 (createAll w calls).2).1],
         (createOrder c.1 c.2 (createAll w calls).2).2) := by
  simp [createAll, List.foldl_append]

theorem createOrder_frame (t : OrderType) (now : Nat) (w : World) :
    (createOrder t now w).1 = w.orderTop ∧
    (createOrder t now w).2.orderTop = w.orderTop + 1 ∧
    (createOrder t now w).2.orders
      = Function.update w.orders w.orderTop (NewOrder (w.c.orderCounter + 1) t now) ∧
    (createOrder t now w).2.c.vipOrders
      = (if t = OrderType.VIP then w.c.vipOrders ++ [w.orderTop] else w.c.vipOrders) ∧
    (createOrder t now w).2.c.normalOrders
      = (if t = OrderType.VIP then w.c.normalOrders else w.c.normalOrders ++ [w.orderTop]) := by
  cases t <;> simp [createOrder, CreateNormalOrder, CreateVIPOrder, assignOrderToBot]

/-- What a sequence of create calls on a new controller builds. -/
theorem createAll_spec (calls : List (OrderType × Nat)) :
    (createAll NewController calls).1 = List.range calls.length ∧
    (createAll NewController calls).2.orderTop = calls.length ∧
    (createAll NewController calls).2.c.vipOrders
      = (List.range calls.length).filter
          (fun o => ((createAll NewController calls).2.orders o).IsVIP) ∧
    (createAll NewController calls).2.c.normalOrders
      = (List.range calls.length).filter
          (fun o => !((createAll NewController calls).2.orders o).IsVIP) ∧
    (∀ o, o < calls.length →
      ((createAll NewController calls).2.orders o).Status = OrderStatus.PENDING) ∧
    (List.range calls.length).map (fun o => ((createAll NewController calls).2.orders o).Typ)
      = calls.map Prod.fst := by
  induction calls using List.reverseRecOn with
  | nil => simp [createAll, NewController]
  | append_singleton calls c ih =>
    obtain ⟨h1, h2, h3, h4, h5, h6⟩ := ih
    have hf := createOrder_frame c.1 c.2 (createAll NewController calls).2
    rw [h2] at hf
    obtain ⟨f1, f2, f3, f4, f5⟩ := hf
    have hold : ∀ o ∈ List.range calls.length,
        (createOrder c.1 c.2 (createAll NewController calls).2).2.orders o
          = (createAll NewController calls).2.orders o := by
      intro o ho
      rw [f3, Function.update_noteq (Nat.ne_of_lt (List.mem_range.mp ho))]
    have hnew : (createOrder c.1 c.2 (createAll NewController calls).2).2.orders calls.length
        = NewOrder ((createAll NewController calls).2.c.orderCounter + 1) c.1 c.2 := by
      rw [f3, Function.update_same]
    rw [createAll_snoc]
    simp only [List.length_append, List.length_singleton, List.range_succ, List.filter_append,
      List.map_append]
    refine ⟨by rw [h1, f1], f2, ?_, ?_, ?_, ?_⟩
    · have hfilt : (List.range calls.length).filter
          (fun o => ((createOrder c.1 c.2 (createAll NewController calls).2).2.orders o).IsVIP)
          = (List.range calls.length).filter
              (fun o => ((createAll NewController calls).2.orders o).IsVIP) :=
        List.filter_congr (fun o ho => by rw [hold o ho])
      rw [f4, hfilt, ← h3]
      cases hc : c.1 <;> rw [hc] at hnew <;> simp [List.filter_cons, hnew, NewOrder, Order.IsVIP]
    · have hfilt : (List.range calls.length).filter
          (fun o => !((createOrder c.1 c.2 (createAll NewController calls).2).2.orders o).IsVIP)
          = (List.range calls.length).filter
              (fun o => !((createAll NewController calls).2.orders o).IsVIP) :=
        List.filter_congr (fun o ho => by rw [hold o ho])
      rw [f5, hfilt, ← h4]
      cases hc : c.1 <;> rw [hc] at hnew <;> simp [List.filter_cons, hnew, NewOrder, Order.IsVIP]
    · intro o ho
      by_cases e : o = calls.length
      · subst e; rw [hnew]; rfl
      · rw [hold o (List.mem_range.mpr (by omega))]
        exact h5 o (by omega)
    · rw [List.map_congr_left (fun o ho => by rw [hold o ho]), h6]
      simp [hnew, NewOrder]

/-- C3: on a new controller with no bots, after any finite sequence of
CreateNormalOrder and CreateVIPOrder calls, GetPendingOrders is the list of the
created VIP orders in creation order followed by the created Normal orders in
creation order; the i-th created order has the class of the i-th call. -/
theorem GetPendingOrders_after_creates (calls : List (OrderType × Nat)) :
    GetPendingOrders (createAll NewController calls).2
      = (createAll NewController calls).1.filter
          (fun o => ((createAll NewController calls).2.orders o).Typ = OrderType.VIP)
        ++ (createAll NewController calls).1.filter
          (fun o => ((createAll NewController calls).2.orders o).Typ = OrderType.Normal) ∧
    (createAll NewController calls).1.map
        (fun o => ((createAll NewController calls).2.orders o).Typ)
      = calls.map Prod.fst ∧
    (createAll NewController calls).2.c.bots = [] := by
  obtain ⟨h1, h2, h3, h4, h5, h6⟩ := createAll_spec calls
  refine ⟨?_, by rw [h1]; exact h6, ?_⟩
  · unfold GetPendingOrders
    have hv : (createAll NewController calls).2.c.vipOrders.filter
        (createAll NewController calls).2.isPending
          = (createAll NewController calls).2.c.vipOrders := by
      rw [List.filter_eq_self]
      intro o ho
      rw [h3] at ho
      exact (isPending_iff _ o).mpr (h5 o (List.mem_range.mp (List.mem_of_mem_filter ho)))
    have hn : (createAll NewController calls).2.c.normalOrders.filter
        (createAll NewController calls).2.isPending
          = (createAll NewController calls).2.c.normalOrders := by
      rw [List.filter_eq_self]
      intro o ho
      rw [h4] at ho
      exact (isPending_iff _ o).mpr (h5 o (List.mem_range.mp (List.mem_of_mem_filter ho)))
    rw [hv, hn, h3, h4, h1]
    congr 1
    apply List.filter_congr
    intro o _
    unfold Order.IsVIP
    generalize ((createAll NewController calls).2.orders o).Typ = t
    cases t <;> rfl
  · induction calls using List.reverseRecOn with
    | nil => rfl
    | append_singleton calls c ih =>
      rw [createAll_snoc]
      have := ih (createAll_spec calls).1 (createAll_spec calls).2.1 (createAll_spec calls).2.2.1
        (createAll_spec calls).2.2.2.1 (createAll_spec calls).2.2.2.2.1
        (createAll_spec calls).2.2.2.2.2
      cases hc : c.1 <;>
        simpa [createOrder, CreateNormalOrder, CreateVIPOrder, assignOrderToBot, hc] using this

/-- Scenario A of the spec: create-normal then create-vip gives [vip, normal]. -/
theorem scenarioA :
    GetPendingOrders (createAll NewController [(OrderType.Normal, 5), (OrderType.VIP, 6)]).2
      = [1, 0] ∧
    (createAll NewController [(OrderType.Normal, 5), (OrderType.VIP, 6)]).1 = [0, 1] := by
  decide

/-! ## Exclusive ownership -/

theorem WF.queueTyped {w : World} (h : WF w) (t : OrderType) :
    ∀ o ∈ w.queue t, o < w.orderTop ∧ (w.orders o).Typ = t := by
  cases t
  · exact h.normalTyped
  · exact h.vipTyped

theorem held_none_current {l : Loop} (h : l.held = none) : l.current = none := by
  cases l <;> simp [Loop.held] at h <;> rfl

theorem current_some_held {l : Loop} {o : OrderPtr} (h : l.current = some o) :
    l = Loop.running o := by
  cases l <;> simp [Loop.current] at h
  rw [h]

theorem Excl_NewController : Excl NewController where
  nodup := by intro t; cases t <;> simp [World.queue, NewController]
  heldFree := by intro b o t h; simp [NewController, Loop.held] at h
  heldInj := by intro b1 b2 o h; simp [NewController, Loop.held] at h
  placed := by intro o h; simp [NewController] at h
  current := by
    intro b
    refine ⟨rfl, ?_⟩
    simp [NewController, Loop.current]
  notCancelled := by intro b; rfl
  phase := by intro b o h; simp [NewController, Loop.held] at h
  queueStatus := by intro t o h; cases t <;> simp [World.queue, NewController] at h
  sorted := by intro t; cases t <;> simp [World.queue, NewController]

/-- Ownership does not depend on the registry, the counters or the bot heap
frontier. -/
theorem Excl.same {w w1 : World} (h : Excl w) (ho : w1.orders = w.orders)
    (ht : w1.orderTop = w.orderTop) (hb : w1.botObjs = w.botObjs) (hl : w1.loops = w.loops)
    (hq : ∀ t, w1.queue t = w.queue t) : Excl w1 where
  nodup := by intro t; rw [hq]; exact h.nodup t
  heldFree := by intro b o t; rw [hl, hq]; exact h.heldFree b o t
  heldInj := by rw [hl]; exact h.heldInj
  placed := by
    intro o
    rw [ht, hl]
    intro hlt
    rcases h.placed o hlt with ⟨t, hm⟩ | hm
    · exact Or.inl ⟨t, by rw [hq]; exact hm⟩
    · exact Or.inr hm
  current := by rw [hb, hl]; exact h.current
  notCancelled := by rw [hb]; exact h.notCancelled
  phase := by rw [hl, ho]; exact h.phase
  queueStatus := by intro t; rw [hq, ho]; exact h.queueStatus t
  sorted := by
    intro t
    have : w1.isPending = w.isPending := by
      funext o; simp [World.isPending, ho]
    rw [hq, this]; exact h.sorted t

/-- A pull-loop that holds no order moves to a place where it holds none. -/
theorem Excl.release {w : World} (h : Excl w) (b : BotPtr) (l : Loop)
    (hb : (w.loops b).held = none) (hl : l.held = none) : Excl (w.goto b l) := by
  have hheld : ∀ p, ((w.goto b l).loops p).held = (w.loops p).held := by
    intro p
    rw [goto_loops]
    split_ifs with e
    · subst e; rw [hl, hb]
    · rfl
  have hcur : ∀ p, ((w.goto b l).loops p).current = (w.loops p).current := by
    intro p
    rw [goto_loops]
    split_ifs with e
    · subst e; rw [held_none_current hl, held_none_current hb]
    · rfl
  have hph : ∀ p o, ((w.goto b l).loops p).held = some o →
      ((w.goto b l).loops p).phase = (w.loops p).phase := by
    intro p o hp
    rw [goto_loops] at hp ⊢
    split_ifs at hp ⊢ with e
    · rw [hl] at hp; contradiction
    · rfl
  exact
    { nodup := h.nodup
      heldFree := by intro p o t hp; rw [hheld] at hp; exact h.heldFree p o t hp
      heldInj := by
        intro p1 p2 o h1 h2
        rw [hheld] at h1 h2
        exact h.heldInj p1 p2 o h1 h2
      placed := by
        intro o ho
        rcases h.placed o ho with hm | ⟨p, hp⟩
        · exact Or.inl hm
        · exact Or.inr ⟨p, by rw [hheld]; exact hp⟩
      current := by intro p; rw [hcur]; exact h.current p
      notCancelled := h.notCancelled
      phase := by
        intro p o hp
        rw [hph p o hp]
        rw [hheld] at hp
        exact h.phase p o hp
      queueStatus := h.queueStatus
      sorted := h.sorted }

/-- The holder `b` of the order at `o` moves on: its loop goes to `l`, still
holding `o`, the order object becomes `x` and the bot object `y`. -/
theorem Excl.advance {w : World} (h : Excl w) (b : BotPtr) (o : OrderPtr) (l : Loop)
    (x : Order) (y : Bot)
    (hb : (w.loops b).held = some o) (hl : l.held = some o)
    (hx : l.phase = some x.Status)
    (hy1 : y.CurrentOrder = l.current)
    (hy2 : y.Status = BotStatus.PROCESSING ↔ l.current.isSome = true)
    (hy3 : y.ctxDone = false) :
    Excl { w with
      orders := Function.update w.orders o x
      botObjs := Function.update w.botObjs b y
      loops := Function.update w.loops b l } := by
  have hheld : ∀ p, ((Function.update w.loops b l) p).held = (w.loops p).held := by
    intro p
    rw [Function.update_apply]
    split_ifs with e
    · subst e; rw [hl, hb]
    · rfl
  have hother : ∀ q t, q ∈ w.queue t → Function.update w.orders o x q = w.orders q := by
    intro q t hq
    have : q ≠ o := by
      intro e; subst e; exact h.heldFree b _ t hb hq
    rw [Function.update_noteq this]
  exact
    { nodup := h.nodup
      heldFree := by
        intro p q t hp
        have hp2 : ((Function.update w.loops b l) p).held = some q := hp
        rw [hheld] at hp2
        exact h.heldFree p q t hp2
      heldInj := by
        intro p1 p2 q h1 h2
        have h1a : ((Function.update w.loops b l) p1).held = some q := h1
        have h2a : ((Function.update w.loops b l) p2).held = some q := h2
        rw [hheld] at h1a h2a
        exact h.heldInj p1 p2 q h1a h2a
      placed := by
        intro q hq
        rcases h.placed q hq with hm | ⟨p, hp⟩
        · exact Or.inl hm
        · exact Or.inr ⟨p, by
            show ((Function.update w.loops b l) p).held = some q
            rw [hheld]; exact hp⟩
      current := by
        intro p
        show ((Function.update w.botObjs b y) p).CurrentOrder
            = ((Function.update w.loops b l) p).current ∧
          (((Function.update w.botObjs b y) p).Status = BotStatus.PROCESSING ↔
            ((Function.update w.loops b l) p).current.isSome = true)
        by_cases e : p = b
        · subst e
          simp only [Function.update_same]
          exact ⟨hy1, hy2⟩
        · simp only [Function.update_noteq e]
          exact h.current p
      notCancelled := by
        intro p
        show ((Function.update w.botObjs b y) p).ctxDone = false
        by_cases e : p = b
        · subst e; simp only [Function.update_same]; exact hy3
        · simp only [Function.update_noteq e]; exact h.notCancelled p
      phase := by
        intro p q hp
        show ((Function.update w.loops b l) p).phase
          = some ((Function.update w.orders o x) q).Status
        have hp2 : ((Function.update w.loops b l) p).held = some q := hp
        have hp3 := hp2
        rw [hheld] at hp3
        by_cases e : p = b
        · subst e
          have hq : q = o := by
            rw [hb] at hp3; exact (Option.some.inj hp3).symm
          subst hq
          simp only [Function.update_same]
          exact hx
        · have hq : q ≠ o := by
            intro eq; subst eq
            exact e (h.heldInj p b _ hp3 hb)
          simp only [Function.update_noteq e, Function.update_noteq hq]
          exact h.phase p q hp3
      queueStatus := by
        intro t q hq
        show ((Function.update w.orders o x) q).Status ≠ OrderStatus.PROCESSING
        rw [hother q t hq]
        exact h.queueStatus t q hq
      sorted := by
        intro t
        have : (w.queue t).filter
            (fun q => ((Function.update w.orders o x) q).Status == OrderStatus.PENDING)
            = (w.queue t).filter w.isPending :=
          List.filter_congr (fun q hq => by rw [hother q t hq]; rfl)
        show ((w.queue t).filter
          (fun q => ((Function.update w.orders o x) q).Status == OrderStatus.PENDING)).Pairwise _
        rw [this]
        exact h.sorted t }

theorem isPending_congr {w w1 : World} (ho : w1.orders = w.orders) :
    w1.isPending = w.isPending := by
  funext o; simp [World.isPending, ho]

/-- The polling pull-loop of `b` takes the pending order at `o` out of the queue
of class `t`. -/
theorem Excl.take {w w1 : World} (h : Excl w) (hw : WF w) (b : BotPtr) (o : OrderPtr)
    (t : OrderType) (hb : w.loops b = Loop.poll) (hm : o ∈ w.queue t)
    (hp : w.isPending o = true)
    (ho : w1.orders = w.orders) (htop : w1.orderTop = w.orderTop)
    (hbo : w1.botObjs = w.botObjs)
    (hl : w1.loops = Function.update w.loops b (Loop.holding o))
    (hq : ∀ t1, w1.queue t1 = if t1 = t then (w.queue t1).erase o else w.queue t1) :
    Excl w1 := by
  have hsub : ∀ t1 x, x ∈ w1.queue t1 → x ∈ w.queue t1 := by
    intro t1 x hx
    rw [hq] at hx
    split_ifs at hx
    · exact List.mem_of_mem_erase hx
    · exact hx
  have hgone : ∀ t1, o ∉ w1.queue t1 := by
    intro t1 hx
    rw [hq] at hx
    split_ifs at hx with e
    · subst e
      exact ((h.nodup t1).mem_erase_iff.mp hx).1 rfl
    · have h1 := (hw.queueTyped t1 o hx).2
      have h2 := (hw.queueTyped t o hm).2
      exact e (h1.symm.trans h2)
  have hloop : ∀ p, p ≠ b → w1.loops p = w.loops p := by
    intro p e; rw [hl, Function.update_noteq e]
  have hloopb : w1.loops b = Loop.holding o := by rw [hl, Function.update_same]
  have hold : ∀ p q, (w1.loops p).held = some q → (p = b ∧ q = o) ∨
      (p ≠ b ∧ (w.loops p).held = some q) := by
    intro p q hpq
    by_cases e : p = b
    · subst e
      rw [hloopb] at hpq
      exact Or.inl ⟨rfl, (Option.some.inj hpq).symm⟩
    · rw [hloop p e] at hpq
      exact Or.inr ⟨e, hpq⟩
  exact
    { nodup := by
        intro t1
        rw [hq]
        split_ifs
        · exact (h.nodup t1).erase o
        · exact h.nodup t1
      heldFree := by
        intro p q t1 hpq
        rcases hold p q hpq with ⟨_, e⟩ | ⟨_, hpq2⟩
        · subst e; exact hgone t1
        · exact fun hx => h.heldFree p q t1 hpq2 (hsub t1 q hx)
      heldInj := by
        intro p1 p2 q h1 h2
        rcases hold p1 q h1 with ⟨e1, eq1⟩ | ⟨n1, g1⟩ <;>
          rcases hold p2 q h2 with ⟨e2, eq2⟩ | ⟨n2, g2⟩
        · rw [e1, e2]
        · subst eq1; exact absurd hm (h.heldFree p2 _ t g2)
        · subst eq2; exact absurd hm (h.heldFree p1 _ t g1)
        · exact h.heldInj p1 p2 q g1 g2
      placed := by
        intro q hqlt
        rw [htop] at hqlt
        by_cases e : q = o
        · subst e; exact Or.inr ⟨b, by rw [hloopb]; rfl⟩
        · rcases h.placed q hqlt with ⟨t1, hx⟩ | ⟨p, hx⟩
          · refine Or.inl ⟨t1, ?_⟩
            rw [hq]
            split_ifs
            · exact (List.mem_erase_of_ne e).mpr hx
            · exact hx
          · have hpb : p ≠ b := by
              intro e2; subst e2; rw [hb] at hx; simp [Loop.held] at hx
            exact Or.inr ⟨p, by rw [hloop p hpb]; exact hx⟩
      current := by
        intro p
        rw [hbo]
        by_cases e : p = b
        · subst e
          have := h.current p
          rw [hb] at this
          rw [hloopb]
          exact this
        · rw [hloop p e]; exact h.current p
      notCancelled := by rw [hbo]; exact h.notCancelled
      phase := by
        intro p q hpq
        rw [ho]
        rcases hold p q hpq with ⟨e1, e2⟩ | ⟨n1, g1⟩
        · subst e1; subst e2
          rw [hloopb]
          simp only [Loop.phase]
          rw [(isPending_iff w _).mp hp]
        · rw [hloop p n1]; exact h.phase p q g1
      queueStatus := by
        intro t1 q hx
        rw [ho]
        exact h.queueStatus t1 q (hsub t1 q hx)
      sorted := by
        intro t1
        rw [isPending_congr ho, hq]
        split_ifs
        · exact (h.sorted t1).sublist ((List.erase_sublist o _).filter _)
        · exact h.sorted t1 }

/-- The pull-loop of `b` gives the order at `o` back after a completed run: the
order is appended to the queue of its class. -/
theorem Excl.giveBack {w w1 : World} (h : Excl w) (b : BotPtr) (o : OrderPtr) (d : Bool)
    (hb : w.loops b = Loop.finished o d)
    (ho : w1.orders = w.orders) (htop : w1.orderTop = w.orderTop)
    (hbo : w1.botObjs = w.botObjs)
    (hl : w1.loops = Function.update w.loops b Loop.poll)
    (hq : ∀ t1, w1.queue t1
      = if t1 = (w.orders o).Typ then w.queue t1 ++ [o] else w.queue t1) :
    Excl w1 := by
  have hheld : (w.loops b).held = some o := by rw [hb]; rfl
  have hsub : ∀ t1 x, x ∈ w1.queue t1 → x ∈ w.queue t1 ∨ x = o := by
    intro t1 x hx
    rw [hq] at hx
    split_ifs at hx
    · rcases List.mem_append.mp hx with g | g
      · exact Or.inl g
      · exact Or.inr (List.mem_singleton.mp g)
    · exact Or.inl hx
  have hsup : ∀ t1 x, x ∈ w.queue t1 → x ∈ w1.queue t1 := by
    intro t1 x hx
    rw [hq]
    split_ifs
    · exact List.mem_append_left _ hx
    · exact hx
  have hloop : ∀ p, p ≠ b → w1.loops p = w.loops p := by
    intro p e; rw [hl, Function.update_noteq e]
  have hloopb : w1.loops b = Loop.poll := by rw [hl, Function.update_same]
  have hold : ∀ p q, (w1.loops p).held = some q →
      p ≠ b ∧ q ≠ o ∧ (w.loops p).held = some q := by
    intro p q hpq
    by_cases e : p = b
    · subst e
      rw [hloopb] at hpq
      simp [Loop.held] at hpq
    · rw [hloop p e] at hpq
      refine ⟨e, ?_, hpq⟩
      intro eq; subst eq
      exact e (h.heldInj p b _ hpq hheld)
  have hstat : (w.orders o).Status = OrderStatus.COMPLETE := by
    have := h.phase b o hheld
    rw [hb] at this
    simp only [Loop.phase, Option.some.injEq] at this
    exact this.symm
  exact
    { nodup := by
        intro t1
        rw [hq]
        split_ifs
        · rw [List.nodup_append]
          refine ⟨h.nodup t1, List.nodup_singleton o, ?_⟩
          intro x hx1 hx2
          rw [List.mem_singleton.mp hx2] at hx1
          exact h.heldFree b o t1 hheld hx1
        · exact h.nodup t1
      heldFree := by
        intro p q t1 hpq hx
        obtain ⟨_, hne, g⟩ := hold p q hpq
        rcases hsub t1 q hx with g2 | g2
        · exact h.heldFree p q t1 g g2
        · exact hne g2
      heldInj := by
        intro p1 p2 q h1 h2
        exact h.heldInj p1 p2 q (hold p1 q h1).2.2 (hold p2 q h2).2.2
      placed := by
        intro q hqlt
        rw [htop] at hqlt
        rcases h.placed q hqlt with ⟨t1, hx⟩ | ⟨p, hx⟩
        · exact Or.inl ⟨t1, hsup t1 q hx⟩
        · by_cases e : p = b
          · subst e
            rw [hheld] at hx
            have hqo : q = o := (Option.some.inj hx).symm
            subst hqo
            refine Or.inl ⟨(w.orders q).Typ, ?_⟩
            rw [hq]
            simp
          · exact Or.inr ⟨p, by rw [hloop p e]; exact hx⟩
      current := by
        intro p
        rw [hbo]
        by_cases e : p = b
        · subst e
          have := h.current p
          rw [hb] at this
          rw [hloopb]
          exact this
        · rw [hloop p e]; exact h.current p
      notCancelled := by rw [hbo]; exact h.notCancelled
      phase := by
        intro p q hpq
        rw [ho]
        obtain ⟨n1, _, g⟩ := hold p q hpq
        rw [hloop p n1]; exact h.phase p q g
      queueStatus := by
        intro t1 q hx
        rw [ho]
        rcases hsub t1 q hx with g | g
        · exact h.queueStatus t1 q g
        · rw [g, hstat]; decide
      sorted := by
        intro t1
        rw [isPending_congr ho, hq]
        split_ifs
        · have : w.isPending o = false := by
            simp [World.isPending, hstat]
          rw [List.filter_append]
          simp only [List.filter_cons, this, List.filter_nil, Bool.false_eq_true, if_false,
            List.append_nil]
          exact h.sorted t1
        · exact h.sorted t1 }

theorem createOrder_queue (t : OrderType) (now : Nat) (w : World) (t1 : OrderType) :
    (createOrder t now w).2.queue t1
      = if t1 = t then w.queue t1 ++ [w.orderTop] else w.queue t1 := by
  cases t <;> cases t1 <;>
    simp [createOrder, CreateNormalOrder, CreateVIPOrder, assignOrderToBot, World.queue]

theorem createOrder_rest (t : OrderType) (now : Nat) (w : World) :
    (createOrder t now w).2.botObjs = w.botObjs ∧ (createOrder t now w).2.loops = w.loops ∧
    (createOrder t now w).2.botTop = w.botTop := by
  cases t <;> simp [createOrder, CreateNormalOrder, CreateVIPOrder, assignOrderToBot]

/-- A create call allocates a fresh pending order and appends it to its queue. -/
theorem Excl.create {w : World} (h : Excl w) (hw : WF w) (t : OrderType) (now : Nat) :
    Excl (createOrder t now w).2 := by
  obtain ⟨_, f2, f3, _, _⟩ := createOrder_frame t now w
  obtain ⟨g1, g2, _⟩ := createOrder_rest t now w
  have hq := createOrder_queue t now w
  have hfresh : ∀ t1, w.orderTop ∉ w.queue t1 := by
    intro t1 hx
    exact Nat.lt_irrefl _ (hw.queueTyped t1 _ hx).1
  have hsub : ∀ t1 x, x ∈ (createOrder t now w).2.queue t1 →
      x ∈ w.queue t1 ∨ x = w.orderTop := by
    intro t1 x hx
    rw [hq] at hx
    split_ifs at hx
    · rcases List.mem_append.mp hx with g | g
      · exact Or.inl g
      · exact Or.inr (List.mem_singleton.mp g)
    · exact Or.inl hx
  have hsame : ∀ x, x < w.orderTop → (createOrder t now w).2.orders x = w.orders x := by
    intro x hx
    rw [f3, Function.update_noteq (Nat.ne_of_lt hx)]
  have hnew : ((createOrder t now w).2.orders w.orderTop).Status = OrderStatus.PENDING := by
    rw [f3, Function.update_same]; rfl
  exact
    { nodup := by
        intro t1
        rw [hq]
        split_ifs
        · rw [List.nodup_append]
          refine ⟨h.nodup t1, List.nodup_singleton _, ?_⟩
          intro x hx1 hx2
          rw [List.mem_singleton.mp hx2] at hx1
          exact hfresh t1 hx1
        · exact h.nodup t1
      heldFree := by
        intro p q t1 hpq hx
        rw [g2] at hpq
        rcases hsub t1 q hx with g | g
        · exact h.heldFree p q t1 hpq g
        · have := hw.heldAlloc p q hpq
          rw [g] at this
          exact Nat.lt_irrefl _ this
      heldInj := by rw [g2]; exact h.heldInj
      placed := by
        intro q hqlt
        rw [f2] at hqlt
        by_cases e : q = w.orderTop
        · subst e
          refine Or.inl ⟨t, ?_⟩
          rw [hq]; simp
        · rcases h.placed q (by omega) with ⟨t1, hx⟩ | ⟨p, hx⟩
          · refine Or.inl ⟨t1, ?_⟩
            rw [hq]
            split_ifs
            · exact List.mem_append_left _ hx
            · exact hx
          · exact Or.inr ⟨p, by rw [g2]; exact hx⟩
      current := by rw [g1, g2]; exact h.current
      notCancelled := by rw [g1]; exact h.notCancelled
      phase := by
        intro p q hpq
        rw [g2] at hpq ⊢
        rw [hsame q (hw.heldAlloc p q hpq)]
        exact h.phase p q hpq
      queueStatus := by
        intro t1 q hx
        rcases hsub t1 q hx with g | g
        · rw [hsame q (hw.queueTyped t1 q g).1]
          exact h.queueStatus t1 q g
        · rw [g, hnew]; decide
      sorted := by
        intro t1
        have hcongr : (w.queue t1).filter (createOrder t now w).2.isPending
            = (w.queue t1).filter w.isPending :=
          List.filter_congr (fun x hx => by
            simp only [World.isPending]
            rw [hsame x (hw.queueTyped t1 x hx).1])
        rw [hq]
        split_ifs
        · have hp : (createOrder t now w).2.isPending w.orderTop = true :=
            (isPending_iff _ _).mpr hnew
          rw [List.filter_append, hcongr]
          simp only [List.filter_cons, hp, List.filter_nil, if_true]
          rw [List.pairwise_append]
          refine ⟨h.sorted t1, List.pairwise_singleton _ _, ?_⟩
          intro a ha b hb2
          rw [List.mem_singleton.mp hb2]
          exact (hw.queueTyped t1 a (List.mem_of_mem_filter ha)).1
        · rw [hcongr]; exact h.sorted t1 }

/-- AddBot allocates an idle bot whose pull-loop holds nothing. -/
theorem Excl.addBotKeeps {w : World} (h : Excl w) (hw : WF w) (now : Nat) : Excl (AddBot now w).2 := by
  have hold : w.loops w.botTop = Loop.exited := hw.loopsAlloc _ (Nat.le_refl _)
  have hbot := h.current w.botTop
  rw [hold] at hbot
  have h1 : Excl (w.goto w.botTop Loop.poll) :=
    h.release w.botTop Loop.poll (by rw [hold]; rfl) rfl
  exact
    { nodup := h1.nodup
      heldFree := h1.heldFree
      heldInj := h1.heldInj
      placed := h1.placed
      current := by
        intro p
        show ((Function.update w.botObjs w.botTop (NewBot (w.c.botCounter + 1) now)) p).CurrentOrder
            = ((Function.update w.loops w.botTop Loop.poll) p).current ∧
          (((Function.update w.botObjs w.botTop (NewBot (w.c.botCounter + 1) now)) p).Status
            = BotStatus.PROCESSING ↔
            ((Function.update w.loops w.botTop Loop.poll) p).current.isSome = true)
        by_cases e : p = w.botTop
        · subst e
          simp [NewBot, Loop.current]
        · simp only [Function.update_noteq e]
          exact h.current p
      notCancelled := by
        intro p
        show ((Function.update w.botObjs w.botTop (NewBot (w.c.botCounter + 1) now)) p).ctxDone
          = false
        by_cases e : p = w.botTop
        · subst e; simp [NewBot]
        · simp only [Function.update_noteq e]
          exact h.notCancelled p
      phase := h1.phase
      queueStatus := h1.queueStatus
      sorted := h1.sorted }

theorem insertOrderBack_queue (w : World) (o : OrderPtr) (t1 : OrderType) :
    (insertOrderBack w o).queue t1
      = if t1 = (w.orders o).Typ then w.queue t1 ++ [o] else w.queue t1 := by
  rcases OrderType_cases (w.orders o).Typ with ht | ht
  · have := insertOrderBack_vip w o ht
    cases t1 <;> simp [World.queue, ht, this.1, this.2]
  · have := insertOrderBack_normal w o ht
    cases t1 <;> simp [World.queue, ht, this.1, this.2]

theorem lastBotBusy_false (w : World) (b : BotPtr) (hl : w.c.bots.getLast? = some b)
    (hq : lastBotBusy w = false) :
    ¬ ((w.botObjs b).Status = BotStatus.PROCESSING ∧ (w.botObjs b).CurrentOrder.isSome) := by
  intro hc
  simp [lastBotBusy, hl, Bot.IsProcessing, hc.1, hc.2] at hq

/-- Every atomic step other than a RemoveBot of a processing bot keeps exclusive
ownership. -/
theorem Excl.stepKeeps {w w1 : World} (h : Excl w) (hw : WF w) (a : Action)
    (hquiet : ¬ (a = Action.removeBot ∧ lastBotBusy w = true))
    (hs : step w a = some w1) : Excl w1 := by
  cases a with
  | createNormal now =>
    simp only [Assignment.step, Option.some.injEq] at hs; subst hs
    exact h.create hw OrderType.Normal now
  | createVIP now =>
    simp only [Assignment.step, Option.some.injEq] at hs; subst hs
    exact h.create hw OrderType.VIP now
  | addBot now =>
    simp only [Assignment.step, Option.some.injEq] at hs; subst hs
    exact h.addBotKeeps hw now
  | removeBot =>
    simp only [Assignment.step, Option.some.injEq] at hs; subst hs
    have hq : lastBotBusy w = false := by
      cases hb : lastBotBusy w
      · rfl
      · exact absurd ⟨rfl, hb⟩ hquiet
    cases hl : w.c.bots.getLast? with
    | none => rw [RemoveBot_empty w hl]; exact h
    | some b =>
      rw [RemoveBot_idle w b hl (lastBotBusy_false w b hl hq)]
      exact h.same rfl rfl rfl rfl (fun t => by cases t <;> rfl)
  | takeNext b =>
    obtain ⟨hl, hc⟩ := step_takeNext w w1 b hs
    have hnone : (w.loops b).held = none := by rw [hl]; rfl
    rcases hc with ⟨_, e⟩ | ⟨_, _, _, e⟩ | ⟨_, o, hv, e⟩ | ⟨_, o, _, hn, e⟩
    · subst e; exact h.release b _ hnone rfl
    · subst e; exact h.release b _ hnone rfl
    · subst e
      refine h.take hw b o OrderType.VIP hl (List.mem_of_find?_eq_some hv)
        (List.find?_some hv) rfl rfl rfl rfl ?_
      intro t1
      cases t1 <;> simp [World.queue, World.goto]
    · subst e
      refine h.take hw b o OrderType.Normal hl (List.mem_of_find?_eq_some hn)
        (List.find?_some hn) rfl rfl rfl rfl ?_
      intro t1
      cases t1 <;> simp [World.queue, World.goto]
  | backoff b =>
    obtain ⟨hl, e⟩ := step_backoff w w1 b hs
    subst e
    exact h.release b _ (by rw [hl]; rfl) rfl
  | startRun b =>
    obtain ⟨o, hl, e⟩ := step_startRun w w1 b hs
    subst e
    exact h.advance b o (Loop.running o) (w.orders o).SetProcessing
      { w.botObjs b with CurrentOrder := some o, Status := BotStatus.PROCESSING }
      (by rw [hl]; rfl) rfl rfl rfl (by simp [Loop.current]) (h.notCancelled b)
  | endCompleted b now =>
    obtain ⟨o, hl, e⟩ := step_endCompleted w w1 b now hs
    subst e
    exact h.advance b o (Loop.finished o true) ((w.orders o).SetComplete now)
      { w.botObjs b with Status := BotStatus.IDLE, CurrentOrder := none }
      (by rw [hl]; rfl) rfl rfl rfl (by simp [Loop.current]) (h.notCancelled b)
  | endCancelled b =>
    obtain ⟨o, _, hc, _⟩ := step_endCancelled w w1 b hs
    rw [h.notCancelled b] at hc
    contradiction
  | returnToQueue b =>
    obtain ⟨o, done, hl, e⟩ := step_returnToQueue w w1 b hs
    subst e
    have hf := insertOrderBack_frame w o
    refine h.giveBack b o done hl hf.1 hf.2.1 hf.2.2.1 ?_ (insertOrderBack_queue w o)
    show Function.update (insertOrderBack w o).loops b Loop.poll = _
    rw [hf.2.2.2.2.1]

theorem runQuiet_cons (w : World) (a : Action) (rest : List Action) :
    runQuiet w (a :: rest)
      = if a = Action.removeBot ∧ lastBotBusy w = true then none
        else (step w a).bind (fun w1 => runQuiet w1 rest) := rfl

/-- A quiet run is a run. -/
theorem runQuiet_run (w w1 : World) (acts : List Action) (hr : runQuiet w acts = some w1) :
    run w acts = some w1 := by
  induction acts generalizing w with
  | nil => exact hr
  | cons a rest ih =>
    rw [runQuiet_cons] at hr
    split_ifs at hr with hq
    rw [run_cons]
    cases hs : step w a with
    | none => rw [hs] at hr; contradiction
    | some w2 =>
      rw [hs] at hr
      exact ih w2 hr

/-- Every quiet run keeps well-formedness and exclusive ownership. -/
theorem Excl.runQuiet {w w1 : World} (h : Excl w) (hw : WF w) (acts : List Action)
    (hr : runQuiet w acts = some w1) : Excl w1 := by
  induction acts generalizing w with
  | nil => simp only [Assignment.runQuiet, Option.some.injEq] at hr; subst hr; exact h
  | cons a rest ih =>
    rw [runQuiet_cons] at hr
    split_ifs at hr with hq
    cases hs : Assignment.step w a with
    | none => rw [hs] at hr; contradiction
    | some w2 =>
      rw [hs] at hr
      exact ih (h.stepKeeps hw a hq hs) (hw.step a hs) hr

/-! ## Every order in one place -/

theorem demoQuiet_reached : runQuiet NewController demoQuietTrace = some demoQuiet :=
  (Option.some_get _).symm

theorem filter_range_unique (p : Nat → Bool) (n b : Nat) (hb : b < n)
    (hp : ∀ x, p x = true ↔ x = b) : (List.range n).filter p = [b] := by
  have hcongr : (List.range n).filter p = (List.range n).filter (fun x => x == b) :=
    List.filter_congr (fun x _ => by
      by_cases e : x = b
      · simp [e, (hp b).mpr rfl]
      · have : p x = false := by
          by_contra hc
          exact e ((hp x).mp (by simpa using hc))
        simp [e, this])
  rw [hcongr, List.filter_beq,
    List.count_eq_one_of_mem (List.nodup_range n) (List.mem_range.mpr hb)]
  rfl

theorem inQueues_eq (w : World) (o : OrderPtr) :
    inQueues w o = (w.queue OrderType.VIP).count o + (w.queue OrderType.Normal).count o := by
  simp [inQueues, World.queue]

/-- C2 (amended): in every state reached from a new controller by steps in which
RemoveBot is only applied while the last bot is not processing, every created
order is in exactly one place: once in the two queues together and held by no
pull-loop, or in neither queue and held by exactly one pull-loop (from take-next
to return-to-queue); and it is the current order of a bot exactly while that
bot's run of it is in progress. -/
theorem onePlace_quiet (acts : List Action) (w : World)
    (hr : runQuiet NewController acts = some w) (o : OrderPtr) (ho : o < w.orderTop) :
    ((inQueues w o = 1 ∧ holders w o = []) ∨
      (inQueues w o = 0 ∧ ∃ b, b < w.botTop ∧ holders w o = [b])) ∧
    (∀ b, (w.botObjs b).CurrentOrder = some o ↔ w.loops b = Loop.running o) := by
  have hw : WF w := WF_NewController.run acts (runQuiet_run _ _ _ hr)
  have he : Excl w := Excl_NewController.runQuiet WF_NewController acts hr
  refine ⟨?_, ?_⟩
  · by_cases hq : ∃ t, o ∈ w.queue t
    · left
      obtain ⟨t, ht⟩ := hq
      constructor
      · rw [inQueues_eq]
        have h1 := List.count_eq_one_of_mem (he.nodup t) ht
        have hty := (hw.queueTyped t o ht).2
        cases t
        · have : o ∉ w.queue OrderType.VIP := by
            intro hx
            have := (hw.queueTyped _ o hx).2
            rw [hty] at this
            exact OrderType.noConfusion this
          rw [h1, List.count_eq_zero_of_not_mem this]
        · have : o ∉ w.queue OrderType.Normal := by
            intro hx
            have := (hw.queueTyped _ o hx).2
            rw [hty] at this
            exact OrderType.noConfusion this
          rw [h1, List.count_eq_zero_of_not_mem this]
      · unfold holders
        rw [List.filter_eq_nil_iff]
        intro b _ hb
        have : (w.loops b).held = some o := by simpa using hb
        exact he.heldFree b o t this ht
    · right
      constructor
      · rw [inQueues_eq, List.count_eq_zero_of_not_mem (fun hx => hq ⟨_, hx⟩),
          List.count_eq_zero_of_not_mem (fun hx => hq ⟨_, hx⟩)]
      · rcases he.placed o ho with hx | ⟨b, hb⟩
        · exact absurd hx hq
        · have hlive : b < w.botTop := by
            apply hw.live
            intro hc
            rw [hc] at hb
            simp [Loop.held] at hb
          refine ⟨b, hlive, filter_range_unique _ _ b hlive ?_⟩
          intro x
          constructor
          · intro hx
            have : (w.loops x).held = some o := by simpa using hx
            exact he.heldInj x b o this hb
          · intro hx
            subst hx
            simpa using hb
  · intro b
    rw [(he.current b).1]
    constructor
    · exact current_some_held
    · intro hl
      rw [hl]; rfl

/-- Witness of C2 (amended): in `demoQuiet` the Normal order (address 0) is held
by bot 0 and is in no queue. -/
theorem onePlace_quiet_witness :
    ((inQueues demoQuiet 0 = 1 ∧ holders demoQuiet 0 = []) ∨
      (inQueues demoQuiet 0 = 0 ∧ ∃ b, b < demoQuiet.botTop ∧ holders demoQuiet 0 = [b])) ∧
    (∀ b, (demoQuiet.botObjs b).CurrentOrder = some 0 ↔
      demoQuiet.loops b = Loop.running 0) :=
  onePlace_quiet demoQuietTrace demoQuiet demoQuiet_reached 0 (by decide)

/-- C2 as stated fails.  After create-order, add-bot, take-next the order is in
neither queue and no bot's current order (StartProcessing has not set it yet).
After a processing bot is removed, RemoveBot requeues its order and the cancelled
run returns it a second time: the order is twice in the Normal queue. -/
theorem onePlace_fails :
    (run NewController inFlightTrace).map
        (fun w => (decide (0 < w.orderTop), inQueues w 0, currentOwners w 0, onePlace w 0))
      = some (true, 0, [], false) ∧
    (run NewController requeueTwiceTrace).map
        (fun w => (decide (0 < w.orderTop), inQueues w 0, currentOwners w 0, onePlace w 0))
      = some (true, 2, [], false) := by
  decide

/-! ## The pending list: creation order -/

theorem pending_of_class (w : World) (hw : WF w) (t : OrderType) :
    (GetPendingOrders w).filter (fun o => (w.orders o).Typ == t)
      = (w.queue t).filter w.isPending := by
  have hv : ∀ o ∈ w.c.vipOrders.filter w.isPending, (w.orders o).Typ = OrderType.VIP :=
    fun o ho => (hw.vipTyped o (List.mem_of_mem_filter ho)).2
  have hn : ∀ o ∈ w.c.normalOrders.filter w.isPending, (w.orders o).Typ = OrderType.Normal :=
    fun o ho => (hw.normalTyped o (List.mem_of_mem_filter ho)).2
  unfold GetPendingOrders
  rw [List.filter_append]
  cases t
  · have h1 : (w.c.vipOrders.filter w.isPending).filter
        (fun o => (w.orders o).Typ == OrderType.Normal) = [] := by
      rw [List.filter_eq_nil_iff]
      intro o ho
      simp [hv o ho]
    have h2 : (w.c.normalOrders.filter w.isPending).filter
        (fun o => (w.orders o).Typ == OrderType.Normal)
          = w.c.normalOrders.filter w.isPending := by
      rw [List.filter_eq_self]
      intro o ho
      simp [hn o ho]
    rw [h1, h2]; rfl
  · have h1 : (w.c.vipOrders.filter w.isPending).filter
        (fun o => (w.orders o).Typ == OrderType.VIP) = w.c.vipOrders.filter w.isPending := by
      rw [List.filter_eq_self]
      intro o ho
      simp [hv o ho]
    have h2 : (w.c.normalOrders.filter w.isPending).filter
        (fun o => (w.orders o).Typ == OrderType.VIP) = [] := by
      rw [List.filter_eq_nil_iff]
      intro o ho
      simp [hn o ho]
    rw [h1, h2, List.append_nil]; rfl

/-- C5 (amended): in every state reached from a new controller by create calls
interleaved with add-bot, take-next, bot runs that complete, return-to-queue and
RemoveBot of bots that are not processing, the pending orders of each class
appear in GetPendingOrders with strictly increasing ids. -/
theorem pendingIds_increasing_quiet (acts : List Action) (w : World)
    (hr : runQuiet NewController acts = some w) (t : OrderType) :
    (pendingIds w t).Pairwise (fun a b => a < b) := by
  have hw : WF w := WF_NewController.run acts (runQuiet_run _ _ _ hr)
  have he : Excl w := Excl_NewController.runQuiet WF_NewController acts hr
  unfold pendingIds
  rw [pending_of_class w hw t, List.pairwise_map]
  refine (he.sorted t).imp_of_mem ?_
  intro a b ha hb hab
  rw [hw.ids a (hw.queueTyped t a (List.mem_of_mem_filter ha)).1,
    hw.ids b (hw.queueTyped t b (List.mem_of_mem_filter hb)).1]
  exact Nat.succ_lt_succ hab

/-- Witness of C5 (amended) on `demoQuiet`. -/
theorem pendingIds_increasing_quiet_witness :
    (pendingIds demoQuiet OrderType.Normal).Pairwise (fun a b => a < b) :=
  pendingIds_increasing_quiet demoQuietTrace demoQuiet demoQuiet_reached OrderType.Normal

/-- C5 as stated fails: with Normal orders 1 and 2 created, a bot that is
processing order 1 is removed; RemoveBot appends order 1 behind order 2 and the
pending Normal ids read 2, 1. -/
theorem pendingIds_not_increasing :
    (run NewController requeueBehindTrace).map
        (fun w => (pendingIds w OrderType.Normal, GetPendingOrders w,
          decide ((pendingIds w OrderType.Normal).Pairwise (fun a b => a < b))))
      = some ([2, 1], [1, 0], false) := by
  decide

/-! ## StartProcessing and Stop -/

theorem StartProcessingComplete_result (now : Nat) (w : World) (b : BotPtr) (o : OrderPtr) :
    ((StartProcessingComplete now w b o).orders o).Status = OrderStatus.COMPLETE ∧
    ((StartProcessingComplete now w b o).orders o).CompletedAt = now ∧
    ((StartProcessingComplete now w b o).botObjs b).Status = BotStatus.IDLE ∧
    ((StartProcessingComplete now w b o).botObjs b).CurrentOrder = none := by
  simp [StartProcessingComplete, Order.SetComplete]

theorem StartProcessingCancelled_result (w : World) (b : BotPtr) (o : OrderPtr) :
    ((StartProcessingCancelled w b o).orders o).Status = OrderStatus.PENDING ∧
    ((StartProcessingCancelled w b o).orders o).CompletedAt = (w.orders o).CompletedAt ∧
    ((StartProcessingCancelled w b o).botObjs b).Status = BotStatus.IDLE ∧
    ((StartProcessingCancelled w b o).botObjs b).CurrentOrder = none ∧
    ((StartProcessingCancelled w b o).botObjs b).ctxDone = (w.botObjs b).ctxDone := by
  simp [StartProcessingCancelled, Order.SetPending]

theorem StartProcessingBegin_result (w : World) (b : BotPtr) (o : OrderPtr) :
    ((StartProcessingBegin w b o).orders o).Status = OrderStatus.PROCESSING ∧
    ((StartProcessingBegin w b o).orders o).CompletedAt = (w.orders o).CompletedAt ∧
    ((StartProcessingBegin w b o).botObjs b).Status = BotStatus.PROCESSING ∧
    ((StartProcessingBegin w b o).botObjs b).CurrentOrder = some o ∧
    ((StartProcessingBegin w b o).botObjs b).ctxDone = (w.botObjs b).ctxDone := by
  simp [StartProcessingBegin, Order.SetProcessing]

/-- Stop on a bot that is inside StartProcessing cancels its context. -/
theorem Stop_cancels (w : World) (b : BotPtr)
    (hs : (w.botObjs b).Status = BotStatus.PROCESSING)
    (hc : (w.botObjs b).CurrentOrder.isSome = true) :
    ((Stop w b).botObjs b).ctxDone = true := by
  unfold Stop
  dsimp only
  split_ifs <;> simp_all

/-- C11: a StartProcessing run of any bot on any order in which the ten seconds
elapse (at the non-zero time `now`) before any cancellation returns true and
ends with the order COMPLETE, its completion time set to `now`, the bot IDLE and
its CurrentOrder nil.  The same holds for the exit branch of the timer taken in
any state `w2` in which the pull-loop of the bot is inside the run. -/
theorem StartProcessing_completes (w : World) (b : BotPtr) (o : OrderPtr) (now : Nat)
    (hnow : 0 < now) (hctx : (w.botObjs b).ctxDone = false) :
    (StartProcessing w b o (Race.elapsed now)).1 = true ∧
    (((StartProcessing w b o (Race.elapsed now)).2.orders o).Status = OrderStatus.COMPLETE ∧
     ((StartProcessing w b o (Race.elapsed now)).2.orders o).CompletedAt = now ∧
     ((StartProcessing w b o (Race.elapsed now)).2.orders o).CompletedAt ≠ 0 ∧
     ((StartProcessing w b o (Race.elapsed now)).2.botObjs b).Status = BotStatus.IDLE ∧
     ((StartProcessing w b o (Race.elapsed now)).2.botObjs b).CurrentOrder = none) ∧
    (∀ w2 : World, w2.loops b = Loop.running o →
      ∃ w3, step w2 (Action.endCompleted b now) = some w3 ∧
        w3.loops b = Loop.finished o true ∧
        (w3.orders o).Status = OrderStatus.COMPLETE ∧ (w3.orders o).CompletedAt = now ∧
        (w3.botObjs b).Status = BotStatus.IDLE ∧ (w3.botObjs b).CurrentOrder = none) := by
  have hb := (StartProcessingBegin_result w b o).2.2.2.2
  rw [hctx] at hb
  have hrun : StartProcessing w b o (Race.elapsed now)
      = (true, StartProcessingComplete now (StartProcessingBegin w b o) b o) := by
    simp [StartProcessing, hb]
  rw [hrun]
  have hres := StartProcessingComplete_result now (StartProcessingBegin w b o) b o
  refine ⟨rfl, ⟨hres.1, hres.2.1, ?_, hres.2.2.1, hres.2.2.2⟩, ?_⟩
  · rw [hres.2.1]; exact Nat.pos_iff_ne_zero.mp hnow
  · intro w2 hl
    have hres2 := StartProcessingComplete_result now w2 b o
    refine ⟨(StartProcessingComplete now w2 b o).goto b (Loop.finished o true), ?_, ?_,
      hres2.1, hres2.2.1, hres2.2.2.1, hres2.2.2.2⟩
    · simp [step, hl]
    · simp [World.goto]

/-- Witness of C11: the idle bot of `demoFresh` runs order 0 to completion at time 40. -/
theorem StartProcessing_completes_witness :
    (StartProcessing demoFresh 0 0 (Race.elapsed 40)).1 = true ∧
    ((StartProcessing demoFresh 0 0 (Race.elapsed 40)).2.orders 0).Status
      = OrderStatus.COMPLETE ∧
    ((StartProcessing demoFresh 0 0 (Race.elapsed 40)).2.orders 0).CompletedAt = 40 :=
  have h := StartProcessing_completes demoFresh 0 0 40 (by decide) (by decide)
  ⟨h.1, h.2.1.1, h.2.1.2.1⟩

/-- C12: a StartProcessing run of any bot on an order that never completed
(completion time zero), during which Stop is called before the ten seconds are
over, returns false and ends with the order PENDING, its completion time still
zero, the bot IDLE and its CurrentOrder nil. -/
theorem StartProcessing_stopped (w : World) (b : BotPtr) (o : OrderPtr) (now : Nat)
    (hnever : (w.orders o).CompletedAt = 0) :
    (StartProcessing w b o (Race.stopped now)).1 = false ∧
    ((StartProcessing w b o (Race.stopped now)).2.orders o).Status = OrderStatus.PENDING ∧
    ((StartProcessing w b o (Race.stopped now)).2.orders o).CompletedAt = 0 ∧
    ((StartProcessing w b o (Race.stopped now)).2.botObjs b).Status = BotStatus.IDLE ∧
    ((StartProcessing w b o (Race.stopped now)).2.botObjs b).CurrentOrder = none := by
  have hb := StartProcessingBegin_result w b o
  by_cases hctx : ((StartProcessingBegin w b o).botObjs b).ctxDone = true
  · have hrun : StartProcessing w b o (Race.stopped now)
        = (false, StartProcessingCancelled (StartProcessingBegin w b o) b o) := by
      simp [StartProcessing, hctx]
    rw [hrun]
    have hres := StartProcessingCancelled_result (StartProcessingBegin w b o) b o
    exact ⟨rfl, hres.1, by rw [hres.2.1, hb.2.1, hnever], hres.2.2.1, hres.2.2.2.1⟩
  · have hstop := Stop_cancels (StartProcessingBegin w b o) b hb.2.2.1
      (by rw [hb.2.2.2.1]; rfl)
    have hrun : StartProcessing w b o (Race.stopped now)
        = (false, StartProcessingCancelled (Stop (StartProcessingBegin w b o) b) b o) := by
      simp [StartProcessing, hctx, hstop]
    rw [hrun]
    have hres := StartProcessingCancelled_result (Stop (StartProcessingBegin w b o) b) b o
    exact ⟨rfl, hres.1, by rw [hres.2.1, Stop_orders, hb.2.1, hnever], hres.2.2.1,
      hres.2.2.2.1⟩

/-- Witness of C12 on `demoFresh`: order 0 was never completed. -/
theorem StartProcessing_stopped_witness :
    (StartProcessing demoFresh 0 0 (Race.stopped 40)).1 = false ∧
    ((StartProcessing demoFresh 0 0 (Race.stopped 40)).2.orders 0).Status
      = OrderStatus.PENDING ∧
    ((StartProcessing demoFresh 0 0 (Race.stopped 40)).2.orders 0).CompletedAt = 0 :=
  have h := StartProcessing_stopped demoFresh 0 0 40 (by decide)
  ⟨h.1, h.2.1, h.2.2.1⟩

/-- A cancelled context stays cancelled: nothing in StartProcessing re-arms it. -/
theorem StartProcessing_keeps_cancelled (w : World) (b : BotPtr) (o : OrderPtr) (race : Race)
    (hctx : (w.botObjs b).ctxDone = true) :
    StartProcessing w b o race
      = (false, StartProcessingCancelled (StartProcessingBegin w b o) b o) := by
  have hb := (StartProcessingBegin_result w b o).2.2.2.2
  rw [hctx] at hb
  simp [StartProcessing, hb]

/-- C13 (amended): the cancellation signal belongs to the bot, not to one run.
After a run of bot `b` that was cancelled by Stop the context is still cancelled,
and any later StartProcessing call of that bot, whether or not Stop is called
again, returns false at once with the order PENDING, its completion time as it
was, the bot IDLE and its CurrentOrder nil. -/
theorem StartProcessing_after_cancel (w : World) (b : BotPtr) (o1 o2 : OrderPtr)
    (now : Nat) (race : Race) :
    ((StartProcessing w b o1 (Race.stopped now)).2.botObjs b).ctxDone = true ∧
    (StartProcessing (StartProcessing w b o1 (Race.stopped now)).2 b o2 race).1 = false ∧
    ((StartProcessing (StartProcessing w b o1 (Race.stopped now)).2 b o2 race).2.orders
      o2).Status = OrderStatus.PENDING ∧
    ((StartProcessing (StartProcessing w b o1 (Race.stopped now)).2 b o2 race).2.orders
      o2).CompletedAt
      = ((StartProcessing w b o1 (Race.stopped now)).2.orders o2).CompletedAt ∧
    ((StartProcessing (StartProcessing w b o1 (Race.stopped now)).2 b o2 race).2.botObjs
      b).Status = BotStatus.IDLE ∧
    ((StartProcessing (StartProcessing w b o1 (Race.stopped now)).2 b o2 race).2.botObjs
      b).CurrentOrder = none := by
  have hb := StartProcessingBegin_result w b o1
  have hdone : ((StartProcessing w b o1 (Race.stopped now)).2.botObjs b).ctxDone = true := by
    by_cases hctx : ((StartProcessingBegin w b o1).botObjs b).ctxDone = true
    · have hrun : StartProcessing w b o1 (Race.stopped now)
          = (false, StartProcessingCancelled (StartProcessingBegin w b o1) b o1) := by
        simp [StartProcessing, hctx]
      rw [hrun, (StartProcessingCancelled_result _ b o1).2.2.2.2, hctx]
    · have hstop := Stop_cancels (StartProcessingBegin w b o1) b hb.2.2.1
        (by rw [hb.2.2.2.1]; rfl)
      have hrun : StartProcessing w b o1 (Race.stopped now)
          = (false, StartProcessingCancelled (Stop (StartProcessingBegin w b o1) b) b o1) := by
        simp [StartProcessing, hctx, hstop]
      rw [hrun, (StartProcessingCancelled_result _ b o1).2.2.2.2, hstop]
  rw [StartProcessing_keeps_cancelled _ b o2 race hdone]
  have hres := StartProcessingCancelled_result
    (StartProcessingBegin (StartProcessing w b o1 (Race.stopped now)).2 b o2) b o2
  exact ⟨hdone, rfl, hres.1,
    by rw [hres.2.1, (StartProcessingBegin_result _ b o2).2.1], hres.2.2.1, hres.2.2.2.1⟩

/-- C13 as stated fails: the bot of `demoFresh` has its run of order 0 cancelled
by Stop; its next run, of order 1, with no further Stop, returns false and leaves
order 1 PENDING with no completion time. -/
theorem StartProcessing_cancel_carries_over :
    (StartProcessing demoFresh 0 0 (Race.stopped 40)).1 = false ∧
    (StartProcessing (StartProcessing demoFresh 0 0 (Race.stopped 40)).2 0 1
      (Race.elapsed 60)).1 = false ∧
    ((StartProcessing (StartProcessing demoFresh 0 0 (Race.stopped 40)).2 0 1
      (Race.elapsed 60)).2.orders 1).Status = OrderStatus.PENDING ∧
    ((StartProcessing (StartProcessing demoFresh 0 0 (Race.stopped 40)).2 0 1
      (Race.elapsed 60)).2.orders 1).CompletedAt = 0 := by
  decide

/-! ## Result values of takeNextOrderForBot -/

/-- C15: takeNextOrderForBot has three outcomes.  For a bot whose id is not in the
registry it returns (nil, false), whatever the queues hold; for a registered bot
when no queued order is PENDING it returns (nil, true); otherwise it returns
(order, true).  In the first two cases the whole state, so both queues and the
registry, is left as it was. -/
theorem takeNextOrderForBot_outcomes (w : World) (b : BotPtr) :
    (¬ registered w b → takeNextOrderForBot w b = ((none, false), w)) ∧
    (registered w b →
      (∀ o ∈ w.c.vipOrders ++ w.c.normalOrders, (w.orders o).Status ≠ OrderStatus.PENDING) →
      takeNextOrderForBot w b = ((none, true), w)) ∧
    (registered w b →
      (∃ o ∈ w.c.vipOrders ++ w.c.normalOrders, (w.orders o).Status = OrderStatus.PENDING) →
      ∃ o, (takeNextOrderForBot w b).1 = (some o, true)) := by
  refine ⟨?_, ?_, ?_⟩
  · intro hreg
    rcases takeNextOrderForBot_cases w b with ⟨_, ht⟩ | ⟨hr, _⟩ | ⟨hr, _⟩ | ⟨hr, _⟩
    · exact ht
    all_goals exact absurd hr hreg
  · intro hreg hnone
    rcases takeNextOrderForBot_cases w b with ⟨hr, _⟩ | ⟨_, _, _, ht⟩ | ⟨_, o, hv, _⟩ |
      ⟨_, o, _, hn, _⟩
    · exact absurd hreg hr
    · exact ht
    · exact absurd ((isPending_iff w o).mp (List.find?_some hv))
        (hnone o (List.mem_append_left _ (List.mem_of_find?_eq_some hv)))
    · exact absurd ((isPending_iff w o).mp (List.find?_some hn))
        (hnone o (List.mem_append_right _ (List.mem_of_find?_eq_some hn)))
  · intro hreg hsome
    rcases takeNextOrderForBot_cases w b with ⟨hr, _⟩ | ⟨_, hv, hn, _⟩ | ⟨_, o, _, ht⟩ |
      ⟨_, o, _, _, ht⟩
    · exact absurd hreg hr
    · obtain ⟨o, ho, hp⟩ := hsome
      have hp2 := (isPending_iff w o).mpr hp
      rcases List.mem_append.mp ho with hm | hm
      · exact absurd hp2 (by simpa using List.find?_eq_none.mp hv o hm)
      · exact absurd hp2 (by simpa using List.find?_eq_none.mp hn o hm)
    · exact ⟨o, by rw [ht]⟩
    · exact ⟨o, by rw [ht]⟩

/-! ## Snapshots and the frame of the create calls -/

/-- C18: GetState returns the VIP queue followed by the Normal queue, each in
queue order, and the registry in registration order; it leaves the state as it
was. -/
theorem GetState_snapshot (w : World) :
    (GetState w).1 = (w.c.vipOrders ++ w.c.normalOrders, w.c.bots) ∧ (GetState w).2 = w := by
  simp [GetState]

theorem isComplete_iff (w : World) (o : OrderPtr) :
    w.isComplete o = true ↔ (w.orders o).Status = OrderStatus.COMPLETE := by
  simp [World.isComplete]

/-- C19: returnOrderToQueue appends the order at the tail of the VIP queue when it
is VIP and at the tail of the Normal queue otherwise, whatever its status, and
leaves the other queue, the registry and every order object as they were; so an
order that is COMPLETE is listed by GetCompleteOrders afterwards, and an order
whose run completes and is then returned by its pull-loop is listed with status
COMPLETE. -/
theorem returnOrderToQueue_appends (w : World) (o : OrderPtr) :
    ((w.orders o).Typ = OrderType.VIP →
      (returnOrderToQueue w o).c.vipOrders = w.c.vipOrders ++ [o] ∧
      (returnOrderToQueue w o).c.normalOrders = w.c.normalOrders) ∧
    ((w.orders o).Typ = OrderType.Normal →
      (returnOrderToQueue w o).c.normalOrders = w.c.normalOrders ++ [o] ∧
      (returnOrderToQueue w o).c.vipOrders = w.c.vipOrders) ∧
    (returnOrderToQueue w o).c.bots = w.c.bots ∧
    (returnOrderToQueue w o).orders = w.orders ∧
    ((w.orders o).Status = OrderStatus.COMPLETE → o ∈ GetCompleteOrders (returnOrderToQueue w o)) ∧
    (∀ b now, w.loops b = Loop.running o →
      ∃ w2, run w [Action.endCompleted b now, Action.returnToQueue b] = some w2 ∧
        o ∈ GetCompleteOrders w2 ∧ (w2.orders o).Status = OrderStatus.COMPLETE) := by
  have hf := insertOrderBack_frame w o
  have hcomplete : ∀ w1 : World, (w1.orders o).Status = OrderStatus.COMPLETE →
      o ∈ GetCompleteOrders (returnOrderToQueue w1 o) := by
    intro w1 hst
    have hf1 := insertOrderBack_frame w1 o
    have hc : (insertOrderBack w1 o).isComplete o = true := by
      rw [isComplete_iff, hf1.1]; exact hst
    unfold GetCompleteOrders returnOrderToQueue
    rcases OrderType_cases (w1.orders o).Typ with ht | ht
    · rw [(insertOrderBack_vip w1 o ht).1]
      simp [hc]
    · rw [(insertOrderBack_normal w1 o ht).2]
      simp [hc]
  refine ⟨?_, ?_, hf.2.2.2.2.2.1, hf.1, hcomplete w, ?_⟩
  · intro ht; exact insertOrderBack_vip w o ht
  · intro ht
    have := insertOrderBack_normal w o ht
    exact ⟨this.2, this.1⟩
  · intro b now hl
    have hst := (StartProcessingComplete_result now w b o).1
    refine ⟨(returnOrderToQueue ((StartProcessingComplete now w b o).goto b
        (Loop.finished o true)) o).goto b Loop.poll, ?_, ?_, ?_⟩
    · simp [run, step, hl, World.goto]
    · have := hcomplete ((StartProcessingComplete now w b o).goto b (Loop.finished o true)) hst
      exact this
    · show ((insertOrderBack ((StartProcessingComplete now w b o).goto b
        (Loop.finished o true)) o).orders o).Status = _
      rw [(insertOrderBack_frame _ o).1]
      exact hst

/-- C20: CreateNormalOrder (CreateVIPOrder) allocates a new order object with
status PENDING and class Normal (VIP), appends it at the tail of the queue of
its class, increases the order counter by one and leaves the other queue, the
registry, the bot counter, every bot object, every pull-loop and every other
order object as they were; assignOrderToBot changes nothing. -/
theorem create_frame (now : Nat) (w : World) (t : OrderType) :
    createOrder OrderType.Normal now w = CreateNormalOrder now w ∧
    createOrder OrderType.VIP now w = CreateVIPOrder now w ∧
    (createOrder t now w).1 = w.orderTop ∧
    ((createOrder t now w).2.orders (createOrder t now w).1).Status = OrderStatus.PENDING ∧
    ((createOrder t now w).2.orders (createOrder t now w).1).Typ = t ∧
    (createOrder t now w).2.queue t = w.queue t ++ [(createOrder t now w).1] ∧
    (∀ t1, t1 ≠ t → (createOrder t now w).2.queue t1 = w.queue t1) ∧
    (createOrder t now w).2.c.orderCounter = w.c.orderCounter + 1 ∧
    (createOrder t now w).2.c.bots = w.c.bots ∧
    (createOrder t now w).2.c.botCounter = w.c.botCounter ∧
    (createOrder t now w).2.botObjs = w.botObjs ∧
    (createOrder t now w).2.loops = w.loops ∧
    (∀ q, q ≠ (createOrder t now w).1 → (createOrder t now w).2.orders q = w.orders q) ∧
    (∀ w1 : World, assignOrderToBot w1 = w1) := by
  obtain ⟨f1, _, f3, _, _⟩ := createOrder_frame t now w
  obtain ⟨g1, g2, _⟩ := createOrder_rest t now w
  have hq := createOrder_queue t now w
  refine ⟨rfl, rfl, f1, ?_, ?_, ?_, ?_, ?_, ?_, ?_, g1, g2, ?_, fun _ => rfl⟩
  · rw [f1, f3, Function.update_same]; rfl
  · rw [f1, f3, Function.update_same]; rfl
  · rw [hq, f1]; simp
  · intro t1 ht1
    rw [hq]; simp [ht1]
  · cases t <;> simp [createOrder, CreateNormalOrder, CreateVIPOrder, assignOrderToBot]
  · cases t <;> simp [createOrder, CreateNormalOrder, CreateVIPOrder, assignOrderToBot]
  · cases t <;> simp [createOrder, CreateNormalOrder, CreateVIPOrder, assignOrderToBot]
  · intro q hq2
    rw [f1] at hq2
    rw [f3, Function.update_noteq hq2]

/-! ## The registry -/

theorem RemoveBot_registry (w : World) :
    (RemoveBot w).2.c.bots = w.c.bots.dropLast ∧ (RemoveBot w).2.botTop = w.botTop := by
  cases hl : w.c.bots.getLast? with
  | none =>
    rw [RemoveBot_empty w hl, List.getLast?_eq_none_iff.mp hl]
    exact ⟨rfl, rfl⟩
  | some b =>
    by_cases hbusy : (w.botObjs b).Status = BotStatus.PROCESSING ∧
        (w.botObjs b).CurrentOrder.isSome
    · obtain ⟨hp, hc⟩ := hbusy
      obtain ⟨o, ho⟩ := Option.isSome_iff_exists.mp hc
      rw [RemoveBot_busy w b o hl hp ho]
      exact ⟨(requeued_frame w b o).2.2.2.1, (requeued_frame w b o).2.2.1⟩
    · rw [RemoveBot_idle w b hl hbusy]
      exact ⟨rfl, rfl⟩

/-- Only AddBot allocates a bot, and only AddBot and RemoveBot write the registry. -/
theorem step_registry (w w1 : World) (a : Action) (hs : step w a = some w1) :
    w1.botTop = w.botTop + (if a.isAdd = true then 1 else 0) ∧
    (w1.c.bots = w.c.bots ∨ w1.c.bots = w.c.bots.dropLast ∨
      w1.c.bots = w.c.bots ++ [w.botTop]) := by
  cases a with
  | createNormal now =>
    simp only [step, Option.some.injEq] at hs; subst hs; exact ⟨rfl, Or.inl rfl⟩
  | createVIP now =>
    simp only [step, Option.some.injEq] at hs; subst hs; exact ⟨rfl, Or.inl rfl⟩
  | addBot now =>
    simp only [step, Option.some.injEq] at hs; subst hs
    exact ⟨rfl, Or.inr (Or.inr rfl)⟩
  | removeBot =>
    simp only [step, Option.some.injEq] at hs; subst hs
    exact ⟨by simpa [Action.isAdd] using (RemoveBot_registry w).2,
      Or.inr (Or.inl (RemoveBot_registry w).1)⟩
  | takeNext b =>
    obtain ⟨_, hc⟩ := step_takeNext w w1 b hs
    rcases hc with ⟨_, e⟩ | ⟨_, _, _, e⟩ | ⟨_, o, _, e⟩ | ⟨_, o, _, _, e⟩ <;> subst e <;>
      exact ⟨rfl, Or.inl rfl⟩
  | backoff b =>
    obtain ⟨_, e⟩ := step_backoff w w1 b hs
    subst e; exact ⟨rfl, Or.inl rfl⟩
  | startRun b =>
    obtain ⟨o, _, e⟩ := step_startRun w w1 b hs
    subst e; exact ⟨rfl, Or.inl rfl⟩
  | endCompleted b now =>
    obtain ⟨o, _, e⟩ := step_endCompleted w w1 b now hs
    subst e; exact ⟨rfl, Or.inl rfl⟩
  | endCancelled b =>
    obtain ⟨o, _, _, e⟩ := step_endCancelled w w1 b hs
    subst e; exact ⟨rfl, Or.inl rfl⟩
  | returnToQueue b =>
    obtain ⟨o, done, _, e⟩ := step_returnToQueue w w1 b hs
    subst e
    exact ⟨(insertOrderBack_frame w o).2.2.2.1, Or.inl (insertOrderBack_frame w o).2.2.2.2.2.1⟩

theorem registry_sorted_step (w w1 : World) (a : Action) (hw : WF w)
    (h : w.c.bots.Pairwise (fun x y => x < y)) (hs : step w a = some w1) :
    w1.c.bots.Pairwise (fun x y => x < y) := by
  rcases (step_registry w w1 a hs).2 with e | e | e
  · rw [e]; exact h
  · rw [e]; exact h.sublist (List.dropLast_sublist _)
  · rw [e, List.pairwise_append]
    refine ⟨h, List.pairwise_singleton _ _, ?_⟩
    intro x hx y hy
    rw [List.mem_singleton.mp hy]
    exact hw.regAlloc x hx

theorem run_registry (w w1 : World) (acts : List Action) (hw : WF w)
    (h : w.c.bots.Pairwise (fun x y => x < y)) (hr : run w acts = some w1) :
    w1.c.bots.Pairwise (fun x y => x < y) ∧ w1.botTop = w.botTop + additions acts := by
  induction acts generalizing w with
  | nil => simp only [run, Option.some.injEq] at hr; subst hr; simp [additions, h]
  | cons a rest ih =>
    rw [run_cons] at hr
    cases hs : step w a with
    | none => rw [hs] at hr; contradiction
    | some w2 =>
      rw [hs] at hr
      have := ih w2 (hw.step a hs) (registry_sorted_step w w2 a hw h hs) hr
      refine ⟨this.1, ?_⟩
      rw [this.2, (step_registry w w2 a hs).1]
      unfold additions
      by_cases hc : a.isAdd = true
      · simp [List.filter_cons, hc]; omega
      · simp [List.filter_cons, hc]

/-- C16: after any sequence of calls on a new controller that holds N - 1 AddBot
calls, the next AddBot returns the bot at address N - 1 with id N, status IDLE
and no current order, and appends it at the end of the registry; the bot at
address `b` carries the id `b + 1` in every reachable state, so ids have no
duplicates and no gaps and are not reused after a removal; and the registry
lists bots with strictly increasing ids. -/
theorem bot_ids_sequential (acts : List Action) (w : World)
    (hr : run NewController acts = some w) :
    (∀ now, (AddBot now w).1 = additions acts ∧
      ((AddBot now w).2.botObjs (AddBot now w).1).ID = additions acts + 1 ∧
      ((AddBot now w).2.botObjs (AddBot now w).1).Status = BotStatus.IDLE ∧
      ((AddBot now w).2.botObjs (AddBot now w).1).CurrentOrder = none ∧
      (AddBot now w).2.c.bots = w.c.bots ++ [(AddBot now w).1]) ∧
    (∀ b, b < additions acts → (w.botObjs b).ID = b + 1) ∧
    (∀ b1 b2, b1 < additions acts → b2 < additions acts →
      (w.botObjs b1).ID = (w.botObjs b2).ID → b1 = b2) ∧
    (w.c.bots.map (fun b => (w.botObjs b).ID)).Pairwise (fun x y => x < y) ∧
    (∀ b ∈ w.c.bots, (w.botObjs b).ID ≤ additions acts) := by
  have h := WF_NewController.run acts hr
  have hreg := run_registry NewController w acts WF_NewController
    (by simp [NewController]) hr
  have htop : w.botTop = additions acts := by simpa [NewController] using hreg.2
  have hcnt : w.c.botCounter = additions acts := by rw [h.botCounter, htop]
  refine ⟨?_, ?_, ?_, ?_, ?_⟩
  · intro now
    simp [AddBot, NewBot, htop, hcnt]
  · intro b hb
    exact h.botIds b (htop ▸ hb)
  · intro b1 b2 h1 h2 he
    rw [h.botIds b1 (htop ▸ h1), h.botIds b2 (htop ▸ h2)] at he
    omega
  · rw [List.pairwise_map]
    refine hreg.1.imp_of_mem ?_
    intro x y hx hy hxy
    rw [h.botIds x (h.regAlloc x hx), h.botIds y (h.regAlloc y hy)]
    exact Nat.succ_lt_succ hxy
  · intro b hb
    have := h.regAlloc b hb
    rw [h.botIds b this, ← htop]
    exact this

/-- Witness of C16: `demoBusyTrace` holds two AddBot calls; the next bot gets id 3. -/
theorem bot_ids_sequential_witness :
    ((AddBot 20 demoBusy).2.botObjs (AddBot 20 demoBusy).1).ID = 3 ∧
    (AddBot 20 demoBusy).2.c.bots = demoBusy.c.bots ++ [2] :=
  have h := (bot_ids_sequential demoBusyTrace demoBusy demoBusy_reached).1 20
  ⟨h.2.1, by rw [h.2.2.2.2, h.1]; rfl⟩

/-! ## A removed bot -/

/-- An allocated bot that is not in the registry never comes back into it. -/
theorem gone_step (w w1 : World) (a : Action) (b : BotPtr)
    (hb : b < w.botTop ∧ b ∉ w.c.bots) (hs : step w a = some w1) :
    b < w1.botTop ∧ b ∉ w1.c.bots := by
  obtain ⟨htop, hreg⟩ := step_registry w w1 a hs
  refine ⟨by rw [htop]; exact Nat.lt_of_lt_of_le hb.1 (Nat.le_add_right _ _), ?_⟩
  rcases hreg with e | e | e
  · rw [e]; exact hb.2
  · rw [e]; exact fun hx => hb.2 (List.dropLast_subset _ hx)
  · rw [e]
    intro hx
    rcases List.mem_append.mp hx with hm | hm
    · exact hb.2 hm
    · have h1 := hb.1
      rw [List.mem_singleton.mp hm] at h1
      exact Nat.lt_irrefl _ h1

theorem gone_run (w w1 : World) (acts : List Action) (b : BotPtr)
    (hb : b < w.botTop ∧ b ∉ w.c.bots) (hr : run w acts = some w1) :
    b < w1.botTop ∧ b ∉ w1.c.bots := by
  induction acts generalizing w with
  | nil => simp only [run, Option.some.injEq] at hr; subst hr; exact hb
  | cons a rest ih =>
    rw [run_cons] at hr
    cases hs : step w a with
    | none => rw [hs] at hr; contradiction
    | some w2 =>
      rw [hs] at hr
      exact ih w2 (gone_step w w2 a b hb hs) hr

/-- C17: once RemoveBot has deregistered the bot `b` (the last of the registry of
a reachable state), in every state reached afterwards by any steps
takeNextOrderForBot for `b` returns (nil, false) and leaves the whole state, so
both queues, as it was; the pull-loop of `b`, when it polls, exits. -/
theorem removed_bot_never_served (acts1 acts2 : List Action) (w w1 : World) (b : BotPtr)
    (h1 : run NewController acts1 = some w) (hlast : w.c.bots.getLast? = some b)
    (h2 : run (RemoveBot w).2 acts2 = some w1) :
    takeNextOrderForBot w1 b = ((none, false), w1) ∧
    (w1.loops b = Loop.poll →
      step w1 (Action.takeNext b) = some (w1.goto b Loop.exited)) := by
  have hw : WF w := WF_NewController.run acts1 h1
  have hsorted := (run_registry NewController w acts1 WF_NewController
    (by simp [NewController]) h1).1
  have hmem : b ∈ w.c.bots := List.mem_of_getLast?_eq_some hlast
  have hsplit : w.c.bots.dropLast ++ [b] = w.c.bots :=
    List.dropLast_append_getLast? b hlast
  have hnot : b ∉ w.c.bots.dropLast := by
    intro hx
    rw [← hsplit, List.pairwise_append] at hsorted
    exact Nat.lt_irrefl b (hsorted.2.2 b hx b (List.mem_singleton.mpr rfl))
  have hgone0 : b < (RemoveBot w).2.botTop ∧ b ∉ (RemoveBot w).2.c.bots := by
    rw [(RemoveBot_registry w).1, (RemoveBot_registry w).2]
    exact ⟨hw.regAlloc b hmem, hnot⟩
  have hgone := gone_run _ w1 acts2 b hgone0 h2
  have hw1 : WF w1 := (hw.removeBot).run acts2 h2
  have hreg : ¬ registered w1 b := by
    rintro ⟨e, he, hid⟩
    rw [hw1.botIds e (hw1.regAlloc e he), hw1.botIds b hgone.1] at hid
    have : e = b := Nat.succ.inj hid
    exact hgone.2 (this ▸ he)
  have htake : takeNextOrderForBot w1 b = ((none, false), w1) := by
    rcases takeNextOrderForBot_cases w1 b with ⟨_, ht⟩ | ⟨hr, _⟩ | ⟨hr, _⟩ | ⟨hr, _⟩
    · exact ht
    all_goals exact absurd hr hreg
  refine ⟨htake, ?_⟩
  intro hl
  simp [step, hl, htake]

/-- Witness of C17: bot 1 is removed from `demoBusy`; after an order and a bot were
added and its cancelled run returned the order, it is still refused. -/
theorem removed_bot_never_served_witness :
    takeNextOrderForBot demoLater 1 = ((none, false), demoLater) ∧
    (demoLater.loops 1 = Loop.poll →
      step demoLater (Action.takeNext 1) = some (demoLater.goto 1 Loop.exited)) :=
  removed_bot_never_served demoBusyTrace demoLaterTrace demoBusy demoLater 1
    demoBusy_reached (by decide) (Option.some_get _).symm

/-! ## COMPLETE as a terminal status -/

/-- In the steps that keep exclusive ownership, an allocated order that is COMPLETE
stays COMPLETE. -/
theorem complete_terminal_quiet {w w1 : World} (h : Excl w) (a : Action)
    (hquiet : ¬ (a = Action.removeBot ∧ lastBotBusy w = true))
    (hs : step w a = some w1) (o : OrderPtr) (ho : o < w.orderTop)
    (hc : (w.orders o).Status = OrderStatus.COMPLETE) :
    (w1.orders o).Status = OrderStatus.COMPLETE := by
  cases a with
  | createNormal now =>
    simp only [step, Option.some.injEq] at hs; subst hs
    simp only [CreateNormalOrder, assignOrderToBot, Function.update_noteq (Nat.ne_of_lt ho)]
    exact hc
  | createVIP now =>
    simp only [step, Option.some.injEq] at hs; subst hs
    simp only [CreateVIPOrder, assignOrderToBot, Function.update_noteq (Nat.ne_of_lt ho)]
    exact hc
  | addBot now =>
    simp only [step, Option.some.injEq] at hs; subst hs; exact hc
  | removeBot =>
    simp only [step, Option.some.injEq] at hs; subst hs
    have hq : lastBotBusy w = false := by
      cases hb : lastBotBusy w
      · rfl
      · exact absurd ⟨rfl, hb⟩ hquiet
    cases hl : w.c.bots.getLast? with
    | none => rw [RemoveBot_empty w hl]; exact hc
    | some b =>
      rw [RemoveBot_idle w b hl (lastBotBusy_false w b hl hq)]
      exact hc
  | takeNext b =>
    obtain ⟨_, hcase⟩ := step_takeNext w w1 b hs
    rcases hcase with ⟨_, e⟩ | ⟨_, _, _, e⟩ | ⟨_, o1, _, e⟩ | ⟨_, o1, _, _, e⟩ <;> subst e <;>
      exact hc
  | backoff b =>
    obtain ⟨_, e⟩ := step_backoff w w1 b hs
    subst e; exact hc
  | startRun b =>
    obtain ⟨o1, hl, e⟩ := step_startRun w w1 b hs
    subst e
    have hph := h.phase b o1 (by rw [hl]; rfl)
    rw [hl] at hph
    simp only [Loop.phase, Option.some.injEq] at hph
    have hne : o ≠ o1 := by
      intro e2; subst e2; rw [hc] at hph; exact OrderStatus.noConfusion hph
    show ((Function.update w.orders o1 (w.orders o1).SetProcessing) o).Status = _
    rw [Function.update_noteq hne]
    exact hc
  | endCompleted b now =>
    obtain ⟨o1, hl, e⟩ := step_endCompleted w w1 b now hs
    subst e
    show ((Function.update w.orders o1 ((w.orders o1).SetComplete now)) o).Status = _
    by_cases hne : o = o1
    · subst hne; rw [Function.update_same]; rfl
    · rw [Function.update_noteq hne]; exact hc
  | endCancelled b =>
    obtain ⟨o1, _, hctx, _⟩ := step_endCancelled w w1 b hs
    rw [h.notCancelled b] at hctx
    contradiction
  | returnToQueue b =>
    obtain ⟨o1, done, _, e⟩ := step_returnToQueue w w1 b hs
    subst e
    show ((insertOrderBack w o1).orders o).Status = _
    rw [(insertOrderBack_frame w o1).1]
    exact hc

/-- C14 fails on the code: `completedTwiceHeldTrace` reaches a state in which
order 1 (address 0) is COMPLETE with its completion time set, and the RemoveBot
step that follows sets it back to PENDING, so that GetPendingOrders lists it
again. -/
theorem complete_set_back_to_pending :
    (run NewController completedTwiceHeldTrace).map
        (fun w => ((w.orders 0).Status, (w.orders 0).CompletedAt, (w.orders 0).ID))
      = some (OrderStatus.COMPLETE, 50, 1) ∧
    (run NewController (completedTwiceHeldTrace ++ [Action.removeBot])).map
        (fun w => ((w.orders 0).Status, (w.orders 0).CompletedAt, GetPendingOrders w))
      = some (OrderStatus.PENDING, 50, [0]) := by
  decide

/-! ## PROCESSING orders and the queues -/

/-- On runs that keep exclusive ownership no queued order is PROCESSING, and an
allocated order that is PROCESSING is in neither queue and is the current order
of a bot. -/
theorem processing_not_queued_quiet (acts : List Action) (w : World)
    (hr : runQuiet NewController acts = some w) :
    (∀ o ∈ w.c.vipOrders ++ w.c.normalOrders, (w.orders o).Status ≠ OrderStatus.PROCESSING) ∧
    (∀ o, o < w.orderTop → (w.orders o).Status = OrderStatus.PROCESSING →
      o ∉ w.c.vipOrders ++ w.c.normalOrders ∧ ∃ b, (w.botObjs b).CurrentOrder = some o) := by
  have he : Excl w := Excl_NewController.runQuiet WF_NewController acts hr
  have hq : ∀ o ∈ w.c.vipOrders ++ w.c.normalOrders,
      (w.orders o).Status ≠ OrderStatus.PROCESSING := by
    intro o ho
    rcases List.mem_append.mp ho with hm | hm
    · exact he.queueStatus OrderType.VIP o hm
    · exact he.queueStatus OrderType.Normal o hm
  refine ⟨hq, ?_⟩
  intro o ho hst
  refine ⟨fun hx => hq o hx hst, ?_⟩
  rcases he.placed o ho with ⟨t, hx⟩ | ⟨b, hb⟩
  · exact absurd hst (he.queueStatus t o hx)
  · refine ⟨b, ?_⟩
    have hph := he.phase b o hb
    rw [hst] at hph
    rw [(he.current b).1]
    cases hl : w.loops b <;> rw [hl] at hb hph <;>
      simp [Loop.held, Loop.phase] at hb hph
    subst hb
    rfl

/-- C21 fails on the code: `processingQueuedTrace` reaches a state in which the
Normal queue holds order 1 (address 0) with status PROCESSING, while bot 1 has
it as its current order. -/
theorem processing_order_queued :
    (run NewController processingQueuedTrace).map
        (fun w => (w.c.normalOrders, w.c.normalOrders.map (fun o => (w.orders o).Status),
          (w.botObjs 0).CurrentOrder, (w.botObjs 0).Status))
      = some ([0], [OrderStatus.PROCESSING], some 0, BotStatus.PROCESSING) := by
  decide

/-! ## SetPending -/

/-- C22: SetPending sets the status to PENDING, whatever it was, and leaves the id,
the class, the creation time and the completion time as they were. -/
theorem SetPending_only_status (o : Order) :
    o.SetPending.Status = OrderStatus.PENDING ∧ o.SetPending.ID = o.ID ∧
    o.SetPending.Typ = o.Typ ∧ o.SetPending.CreatedAt = o.CreatedAt ∧
    o.SetPending.CompletedAt = o.CompletedAt := by
  simp [Order.SetPending]

/-! ## The flag returned by takeNextOrderForBot -/

/-- C23 (amended): takeNextOrderForBot returns (order, true) when an order was
taken, (nil, false) when the bot does not exist, and (nil, true) when the bot
exists and no queued order is PENDING; so the flag is false exactly when the bot
does not exist. -/
theorem takeNextOrderForBot_flag (w : World) (b : BotPtr) :
    (∀ o, (takeNextOrderForBot w b).1.1 = some o → (takeNextOrderForBot w b).1.2 = true) ∧
    ((takeNextOrderForBot w b).1.2 = false ↔ ¬ registered w b) ∧
    ((takeNextOrderForBot w b).1.2 = false → (takeNextOrderForBot w b).1.1 = none) ∧
    (registered w b → GetPendingOrders w = [] →
      (takeNextOrderForBot w b).1 = (none, true)) := by
  rcases takeNextOrderForBot_cases w b with ⟨hr, ht⟩ | ⟨hr, hv, hn, ht⟩ | ⟨hr, o, hv, ht⟩ |
    ⟨hr, o, hv, hn, ht⟩
  · rw [ht]
    exact ⟨fun o h => by simp at h, ⟨fun _ => hr, fun _ => rfl⟩, fun _ => rfl,
      fun h => absurd h hr⟩
  · rw [ht]
    exact ⟨fun o h => by simp at h, ⟨fun h => by simp at h, fun h => absurd hr h⟩,
      fun h => by simp at h, fun _ _ => rfl⟩
  · rw [ht]
    refine ⟨fun _ _ => rfl, ⟨fun h => by simp at h, fun h => absurd hr h⟩,
      fun h => by simp at h, ?_⟩
    intro _ hp
    have hm : o ∈ GetPendingOrders w :=
      List.mem_append_left _ (List.mem_filter.mpr
        ⟨List.mem_of_find?_eq_some hv, List.find?_some hv⟩)
    rw [hp] at hm
    simp at hm
  · rw [ht]
    refine ⟨fun _ _ => rfl, ⟨fun h => by simp at h, fun h => absurd hr h⟩,
      fun h => by simp at h, ?_⟩
    intro _ hp
    have hm : o ∈ GetPendingOrders w :=
      List.mem_append_right _ (List.mem_filter.mpr
        ⟨List.mem_of_find?_eq_some hn, List.find?_some hn⟩)
    rw [hp] at hm
    simp at hm

/-- C23 as stated fails: in `demoNoOrders` bot 1 (address 0) is registered and no
order is pending; takeNextOrderForBot returns (nil, true), not (nil, false). -/
theorem takeNextOrderForBot_none_is_true :
    demoNoOrders.c.bots = [0] ∧ GetPendingOrders demoNoOrders = [] ∧
    (takeNextOrderForBot demoNoOrders 0).1 = (none, true) := by
  decide

/-! ## The filtered queries and GetState -/

/-- C24: GetPendingOrders is the sub-list of the order list of GetState whose
status is PENDING, GetCompleteOrders the sub-list whose status is COMPLETE, both
in the order of that list, and GetVIPOrders followed by GetNormalOrders is that
list. -/
theorem queries_agree_with_GetState (w : World) :
    GetPendingOrders w
      = (GetState w).1.1.filter (fun o => (w.orders o).Status = OrderStatus.PENDING) ∧
    GetCompleteOrders w
      = (GetState w).1.1.filter (fun o => (w.orders o).Status = OrderStatus.COMPLETE) ∧
    GetVIPOrders w ++ GetNormalOrders w = (GetState w).1.1 := by
  have hp : w.isPending = fun o => decide ((w.orders o).Status = OrderStatus.PENDING) := by
    funext o; rfl
  have hc : w.isComplete = fun o => decide ((w.orders o).Status = OrderStatus.COMPLETE) := by
    funext o; rfl
  refine ⟨?_, ?_, ?_⟩
  · simp only [GetPendingOrders, GetState, List.nil_append, List.filter_append, hp]
  · simp only [GetCompleteOrders, GetState, List.nil_append, List.filter_append, hc]
  · simp [GetVIPOrders, GetNormalOrders, GetState]

/-! ## RemoveBot and the jobs of the other bots -/

theorem Loop.current_held (l : Loop) (o : OrderPtr) (h : l.current = some o) :
    l.held = some o := by
  cases l <;> simp [Loop.current] at h
  subst h
  rfl

/-- In a state reached by a run that kept exclusive ownership, RemoveBot changes
no other bot's job, also when it removes a processing bot: a bot `p` other than
the removed one keeps its whole object (status, current order, cancellation
context) and its pull-loop, and its current order `q` keeps its order object
and is in neither queue, before and after. -/
theorem RemoveBot_other_jobs_quiet (acts : List Action) (w : World)
    (hr : runQuiet NewController acts = some w) (p : BotPtr) (q : OrderPtr)
    (hp : w.c.bots.getLast? ≠ some p) (hq : (w.botObjs p).CurrentOrder = some q) :
    (RemoveBot w).2.botObjs p = w.botObjs p ∧ (RemoveBot w).2.loops p = w.loops p ∧
    (RemoveBot w).2.orders q = w.orders q ∧
    q ∉ w.c.vipOrders ++ w.c.normalOrders ∧
    q ∉ (RemoveBot w).2.c.vipOrders ++ (RemoveBot w).2.c.normalOrders := by
  have he : Excl w := Excl_NewController.runQuiet WF_NewController acts hr
  have hf := RemoveBot_frame w
  have hheld : (w.loops p).held = some q :=
    Loop.current_held _ q (by rw [← (he.current p).1]; exact hq)
  have hsole : ∀ b, w.c.bots.getLast? = some b → (w.botObjs b).CurrentOrder ≠ some q := by
    intro b hb hc
    have hb2 : (w.loops b).held = some q :=
      Loop.current_held _ q (by rw [← (he.current b).1]; exact hc)
    have e : p = b := he.heldInj p b q hheld hb2
    exact hp (by rw [e]; exact hb)
  have hv : q ∉ w.c.vipOrders := he.heldFree p q OrderType.VIP hheld
  have hn : q ∉ w.c.normalOrders := he.heldFree p q OrderType.Normal hheld
  refine ⟨(hf.1 p hp).1, (hf.1 p hp).2, hf.2.2.1 q hsole, ?_, ?_⟩
  · intro hm
    rcases List.mem_append.mp hm with h | h
    · exact hv h
    · exact hn h
  · intro hm
    rcases List.mem_append.mp hm with h | h
    · rcases hf.2.2.2.1 with e | ⟨b, o, hb, ho, e⟩
      · rw [e] at h; exact hv h
      · rw [e] at h
        rcases List.mem_append.mp h with h1 | h1
        · exact hv h1
        · have : q = o := by simpa using h1
          subst this
          exact hsole b hb ho
    · rcases hf.2.2.2.2 with e | ⟨b, o, hb, ho, e⟩
      · rw [e] at h; exact hn h
      · rw [e] at h
        rcases List.mem_append.mp h with h1 | h1
        · exact hn h1
        · have : q = o := by simpa using h1
          subst this
          exact hsole b hb ho

/-- In `demoTwoBusy` bot 2 (address 1), the last one, processes order 2 and bot 1
(address 0) processes order 1 (address 0); removing bot 2 leaves bot 1, its
pull-loop and order 1 as they were, and order 1 in no queue. -/
theorem RemoveBot_other_jobs_quiet_demo :
    (RemoveBot demoTwoBusy).2.botObjs 0 = demoTwoBusy.botObjs 0 ∧
    (RemoveBot demoTwoBusy).2.loops 0 = demoTwoBusy.loops 0 ∧
    (RemoveBot demoTwoBusy).2.orders 0 = demoTwoBusy.orders 0 ∧
    0 ∉ demoTwoBusy.c.vipOrders ++ demoTwoBusy.c.normalOrders ∧
    0 ∉ (RemoveBot demoTwoBusy).2.c.vipOrders ++ (RemoveBot demoTwoBusy).2.c.normalOrders :=
  RemoveBot_other_jobs_quiet demoTwoBusyTrace demoTwoBusy (Option.some_get _).symm 0 0
    (by decide) (by decide)

/-- C10 fails on the code: `sharedOrderTrace` reaches the state `demoShared`, in
which bots 1 and 3 (addresses 0 and 2) are registered and both PROCESSING with
order 1 (address 0) as their current order, the order PROCESSING and in no
queue.  RemoveBot removes bot 3; bot 1 stays registered, PROCESSING, with order 1
as its current order, while RemoveBot has set that order back to PENDING and
appended it to the Normal queue, where GetPendingOrders lists it and the next
call of takeNextOrderForBot for a registered bot returns it. -/
theorem RemoveBot_resets_other_job :
    run NewController sharedOrderTrace = some demoShared ∧
    demoShared.c.bots = [0, 2] ∧
    ((demoShared.botObjs 2).Status, (demoShared.botObjs 2).CurrentOrder)
      = (BotStatus.PROCESSING, some 0) ∧
    ((demoShared.botObjs 0).Status, (demoShared.botObjs 0).CurrentOrder)
      = (BotStatus.PROCESSING, some 0) ∧
    (demoShared.orders 0).Status = OrderStatus.PROCESSING ∧
    demoShared.c.vipOrders ++ demoShared.c.normalOrders = [] ∧
    (RemoveBot demoShared).1 = true ∧
    (RemoveBot demoShared).2.c.bots = [0] ∧
    (((RemoveBot demoShared).2.botObjs 0).Status,
      ((RemoveBot demoShared).2.botObjs 0).CurrentOrder) = (BotStatus.PROCESSING, some 0) ∧
    ((RemoveBot demoShared).2.orders 0).Status = OrderStatus.PENDING ∧
    (RemoveBot demoShared).2.c.normalOrders = [0] ∧
    GetPendingOrders (RemoveBot demoShared).2 = [0] ∧
    (takeNextOrderForBot (RemoveBot demoShared).2 0).1 = (some 0, true) := by
  refine ⟨(Option.some_get _).symm, ?_⟩
  decide

/-! ## What takeNextOrderForBot removes -/

theorem findIdx_of_find (p : OrderPtr → Bool) (q : List OrderPtr) (o : OrderPtr)
    (h : q.find? p = some o) :
    q.findIdx p < q.length ∧ q[q.findIdx p]? = some o := by
  induction q with
  | nil => simp at h
  | cons x rest ih =>
    by_cases hx : p x = true
    · have hxo : x = o := by simpa [List.find?_cons, hx] using h
      subst hxo
      simp [List.findIdx_cons, hx]
    · simp only [Bool.not_eq_true] at hx
      have hrest : rest.find? p = some o := by simpa [List.find?_cons, hx] using h
      have := ih hrest
      have e : (x :: rest).findIdx p = rest.findIdx p + 1 := by
        simp [List.findIdx_cons, hx]
      rw [e]
      exact ⟨by simp [this.1], by simpa using this.2⟩

theorem before_findIdx (p : OrderPtr → Bool) (q : List OrderPtr) (j : Nat) (x : OrderPtr)
    (hj : j < q.findIdx p) (hx : q[j]? = some x) : p x = false := by
  induction q generalizing j with
  | nil => simp at hx
  | cons y rest ih =>
    by_cases hy : p y = true
    · simp [List.findIdx_cons, hy] at hj
    · simp only [Bool.not_eq_true] at hy
      have e : (y :: rest).findIdx p = rest.findIdx p + 1 := by
        simp [List.findIdx_cons, hy]
      rw [e] at hj
      cases j with
      | zero =>
        have : y = x := by simpa using hx
        subst this
        exact hy
      | succ k =>
        exact ih k (Nat.lt_of_succ_lt_succ hj) (by simpa using hx)

theorem removeAt_length (q : List OrderPtr) (i : Nat) (h : i < q.length) :
    (removeAt q i).length + 1 = q.length := by
  simp only [removeAt, List.length_append, List.length_take, List.length_drop]
  omega

theorem removeAt_entries (q : List OrderPtr) (i : Nat) (h : i < q.length) :
    (∀ j, j < i → (removeAt q i)[j]? = q[j]?) ∧
    (∀ j, i ≤ j → (removeAt q i)[j]? = q[j + 1]?) := by
  have hlen : (q.take i).length = i := by
    rw [List.length_take]; omega
  constructor
  · intro j hj
    unfold removeAt
    rw [List.getElem?_append_left (by rw [hlen]; exact hj), List.getElem?_take_of_lt hj]
  · intro j hj
    unfold removeAt
    rw [List.getElem?_append_right (by rw [hlen]; exact hj), hlen, List.getElem?_drop]
    congr 1
    omega

/-- The scan of a queue that holds a PENDING order stops at the first index whose
order is PENDING, and the slice expression deletes the element at that index. -/
theorem scanPending_removeAt (w : World) (q : List OrderPtr) (o : OrderPtr)
    (hv : q.find? w.isPending = some o) :
    ∃ i, scanPending w q 0 = some (o, i) ∧ i < q.length ∧ q[i]? = some o ∧
      w.isPending o = true ∧
      (∀ j x, j < i → q[j]? = some x → w.isPending x = false) ∧
      q.erase o = q.take i ++ q.drop (i + 1) ∧
      (∀ j, j < i → (q.erase o)[j]? = q[j]?) ∧
      (∀ j, i ≤ j → (q.erase o)[j]? = q[j + 1]?) ∧
      (q.erase o).length + 1 = q.length := by
  have hi := findIdx_of_find _ _ _ hv
  have hrem := removeAt_findIdx _ _ _ hv
  have hent := removeAt_entries q _ hi.1
  refine ⟨q.findIdx w.isPending, ?_, hi.1, hi.2, List.find?_some hv,
    fun j x hj hx => before_findIdx _ _ j x hj hx, ?_, ?_, ?_, ?_⟩
  · rw [scanPending_eq, hv]; simp
  · rw [← hrem]; rfl
  · rw [← hrem]; exact hent.1
  · rw [← hrem]; exact hent.2
  · rw [← hrem]; exact removeAt_length _ _ hi.1

/-- C25: when takeNextOrderForBot returns the order `o`, the scan stopped at an
index `i` of the VIP queue, or of the Normal queue when no order of the VIP queue
is PENDING; `i` is the first index of that queue whose order is PENDING and `o`
is the order at that index.  That queue afterwards is the old queue with the
element at index `i` deleted: the elements before `i` followed by the elements
after `i`, so the entries below `i` keep their index, the entries above `i` move
down by one and the queue is one shorter; a second occurrence of `o` at a later
index stays.  The other queue, the registry, both counters, both heaps and the
pull-loops are unchanged. -/
theorem takeNextOrderForBot_removes_one (w : World) (b : BotPtr) (o : OrderPtr)
    (h : (takeNextOrderForBot w b).1.1 = some o) :
    ((∃ i, scanPending w w.c.vipOrders 0 = some (o, i) ∧
        i < w.c.vipOrders.length ∧ w.c.vipOrders[i]? = some o ∧ w.isPending o = true ∧
        (∀ j x, j < i → w.c.vipOrders[j]? = some x → w.isPending x = false) ∧
        (takeNextOrderForBot w b).2.c.vipOrders
          = w.c.vipOrders.take i ++ w.c.vipOrders.drop (i + 1) ∧
        (∀ j, j < i → (takeNextOrderForBot w b).2.c.vipOrders[j]? = w.c.vipOrders[j]?) ∧
        (∀ j, i ≤ j →
          (takeNextOrderForBot w b).2.c.vipOrders[j]? = w.c.vipOrders[j + 1]?) ∧
        (takeNextOrderForBot w b).2.c.vipOrders.length + 1 = w.c.vipOrders.length ∧
        (takeNextOrderForBot w b).2.c.normalOrders = w.c.normalOrders) ∨
     ((∀ x ∈ w.c.vipOrders, w.isPending x = false) ∧
      scanPending w w.c.vipOrders 0 = none ∧
      ∃ i, scanPending w w.c.normalOrders 0 = some (o, i) ∧
        i < w.c.normalOrders.length ∧ w.c.normalOrders[i]? = some o ∧
        w.isPending o = true ∧
        (∀ j x, j < i → w.c.normalOrders[j]? = some x → w.isPending x = false) ∧
        (takeNextOrderForBot w b).2.c.normalOrders
          = w.c.normalOrders.take i ++ w.c.normalOrders.drop (i + 1) ∧
        (∀ j, j < i →
          (takeNextOrderForBot w b).2.c.normalOrders[j]? = w.c.normalOrders[j]?) ∧
        (∀ j, i ≤ j →
          (takeNextOrderForBot w b).2.c.normalOrders[j]? = w.c.normalOrders[j + 1]?) ∧
        (takeNextOrderForBot w b).2.c.normalOrders.length + 1 = w.c.normalOrders.length ∧
        (takeNextOrderForBot w b).2.c.vipOrders = w.c.vipOrders)) ∧
    (takeNextOrderForBot w b).2.c.bots = w.c.bots ∧
    (takeNextOrderForBot w b).2.c.orderCounter = w.c.orderCounter ∧
    (takeNextOrderForBot w b).2.c.botCounter = w.c.botCounter ∧
    (takeNextOrderForBot w b).2.orders = w.orders ∧
    (takeNextOrderForBot w b).2.botObjs = w.botObjs ∧
    (takeNextOrderForBot w b).2.loops = w.loops := by
  rcases takeNextOrderForBot_cases w b with ⟨_, ht⟩ | ⟨_, _, _, ht⟩ | ⟨_, o1, hv, ht⟩ |
    ⟨_, o1, hv, hn, ht⟩
  · rw [ht] at h; simp at h
  · rw [ht] at h; simp at h
  · rw [ht] at h ⊢
    have ho : o1 = o := by simpa using h
    subst ho
    obtain ⟨i, h1, h2, h3, h4, h5, h6, h7, h8, h9⟩ := scanPending_removeAt w _ _ hv
    exact ⟨Or.inl ⟨i, h1, h2, h3, h4, h5, h6, h7, h8, h9, rfl⟩, rfl, rfl, rfl, rfl, rfl, rfl⟩
  · rw [ht] at h ⊢
    have ho : o1 = o := by simpa using h
    subst ho
    obtain ⟨i, h1, h2, h3, h4, h5, h6, h7, h8, h9⟩ := scanPending_removeAt w _ _ hn
    have hnone : ∀ x ∈ w.c.vipOrders, w.isPending x = false := by
      intro x hx
      have := List.find?_eq_none.mp hv x hx
      simpa using this
    have hscan : scanPending w w.c.vipOrders 0 = none := by
      rw [scanPending_eq, hv]; rfl
    exact ⟨Or.inr ⟨hnone, hscan, i, h1, h2, h3, h4, h5, h6, h7, h8, h9, rfl⟩,
      rfl, rfl, rfl, rfl, rfl, rfl⟩

/-- Witness of C25: in `demoTwiceQueued` the Normal queue is `[0, 1, 0]`, every
entry PENDING, and the VIP queue is empty; bot 2 (address 1) is handed order 1
(address 0), found at index 0, and the queue left is `[1, 0]`: the first
occurrence is deleted and the second one stays. -/
theorem takeNextOrderForBot_removes_one_witness :
    demoTwiceQueued.c.normalOrders = [0, 1, 0] ∧
    (takeNextOrderForBot demoTwiceQueued 1).1.1 = some 0 ∧
    (takeNextOrderForBot demoTwiceQueued 1).2.c.normalOrders = [1, 0] ∧
    (takeNextOrderForBot demoTwiceQueued 1).2.c.vipOrders = [] := by
  have hq : demoTwiceQueued.c.normalOrders = [0, 1, 0] := by decide
  have hv : demoTwiceQueued.c.vipOrders = [] := by decide
  have hp : demoTwiceQueued.isPending 0 = true := by decide
  have h := (takeNextOrderForBot_removes_one demoTwiceQueued 1 0 (by decide)).1
  refine ⟨hq, by decide, ?_, ?_⟩
  · rcases h with ⟨i, _, hi, _⟩ | ⟨_, _, i, _, _, _, _, hfirst, hrem, _⟩
    · rw [hv] at hi; simp at hi
    · have hi0 : i = 0 := by
        by_contra hne
        have := hfirst 0 0 (Nat.pos_of_ne_zero hne) (by rw [hq]; rfl)
        rw [hp] at this
        exact Bool.noConfusion this
      rw [hrem, hi0, hq]
      rfl
  · rcases h with ⟨i, _, hi, _⟩ | ⟨_, _, i, _, _, _, _, _, _, _, _, _, hsame⟩
    · rw [hv] at hi; simp at hi
    · rw [hsame, hv]

end Assignment
